import Mathlib

/-!
The pull_req service: reviewer assignment and reassignment.

A shallow embedding of the pull-request review service
(`src/service/pull_req`): the core service (`core/service.go`), the
PostgreSQL storage adapter (`adapters/db/storage.go`) and the error mapping
of the REST adapter (`adapters/rest/api.go`).

Conventions of the embedding.
* A Go `[]string` is a `List String`; a function that works in place on the
  backing array of its argument is modelled on that array, index by index.
* A Go result `(T, error)` is an `Except Err T`; a result `error` is an
  `Option Err`. Every `return` of an error in the sources carries the zero
  value of `T`, which `Except.error` leaves implicit.
* A method of a storage interface is a state transformer
  `σ → result × σ` on the storage state `σ`.
* `math/rand/v2` is an oracle `rnd : Nat → Nat`; the draw at step `i` of
  `rand.Shuffle` is `rnd i % (i + 1)`.
* `time.Time` is a `Nat`; SQL `NOW()` reads the field `clock` of the store.
-/

namespace PullReq

/-! ## core/errors.go -/

/-- The sentinel errors of `core/errors.go`, and `other` for every error value
that is none of them (driver and connection errors of the storage). `panic` is
not an error value: it marks a run that stops in a run-time panic. -/
inductive Err where
  | ErrAlreadyExists
  | ErrNotFound
  | ErrAlredyMerged
  | ErrNotAssigned
  | ErrNoCandidate
  | other (msg : String)
  | panic (msg : String)
  deriving DecidableEq, Repr

/-! ## core/models.go -/

structure TeamMember where
  ID : String
  Name : String
  IsActive : Bool
  deriving DecidableEq, Repr

structure Team where
  Name : String
  Members : List TeamMember
  deriving DecidableEq, Repr

structure User where
  ID : String
  Name : String
  TeamName : String
  IsActive : Bool
  deriving DecidableEq, Repr

structure PullRequestShort where
  ID : String
  Name : String
  AuthorID : String
  Status : String
  deriving DecidableEq, Repr

structure PullRequest extends PullRequestShort where
  Reviewers : List String
  MergedAt : Option Nat
  deriving DecidableEq, Repr

/-! ## core/service.go: the slice helpers -/

/-- The swap closure handed to `rand.Shuffle`:
`src[i], src[j] = src[j], src[i]`. -/
def swap (src : List String) (i j : Nat) : List String :=
  (src.set i (src.getD j "")).set j (src.getD i "")

/-- The loop of `rand.Shuffle(n, swap)` (Fisher-Yates) from index `i` down to
`1`: `for ; i > 0; i-- { j := draw in [0, i]; swap(i, j) }`. -/
def shuffleFrom (rnd : Nat → Nat) : Nat → List String → List String
  | 0, src => src
  | i + 1, src => shuffleFrom rnd i (swap src (i + 1) (rnd (i + 1) % (i + 2)))

/-- The call `rand.Shuffle(len(src), swap)`: the loop starts at `len(src) - 1`. -/
def Shuffle (rnd : Nat → Nat) (src : List String) : List String :=
  shuffleFrom rnd (src.length - 1) src

/-- The backing array of `src` after `getRandomStrings(src, n)`: untouched when
`src` is empty, shuffled in place otherwise. -/
def getRandomStringsMem (rnd : Nat → Nat) (src : List String) : List String :=
  if src.length = 0 then src else Shuffle rnd src

/-- The function `getRandomStrings(src, n)`: `nil` for an empty `src`, otherwise
shuffle in place, clamp `n` to `len(src)` and return `src[:n]`. -/
def getRandomStrings (rnd : Nat → Nat) (src : List String) (n : Nat) : List String :=
  if src.length = 0 then []
  else
    let src := Shuffle rnd src
    let n := if src.length < n then src.length else n
    src.take n

/-- One iteration of `for _, v := range src` in `removeByValue`, at index `i`.
The state is the backing array shared by `src` and `result`, and
`len(result)`. `v` is read from the array, and `append(result, v)` writes it
at index `len(result)` of the same array. -/
def removeByValueStep (val : String) (st : List String × Nat) (i : Nat) :
    List String × Nat :=
  let v := st.1.getD i ""
  if v != val then (st.1.set st.2 v, st.2 + 1) else st

/-- The backing array and `len(result)` when the loop of `removeByValue` ends. -/
def removeByValueMem (src : List String) (val : String) : List String × Nat :=
  (List.range src.length).foldl (removeByValueStep val) (src, 0)

/-- The function `removeByValue(src, val)`: the slice `result`, that is the first
`len(result)` cells of the backing array. -/
def removeByValue (src : List String) (val : String) : List String :=
  (removeByValueMem src val).1.take (removeByValueMem src val).2

/-! ## core/ports.go -/

/-- The interface `core.TeamDB`. -/
structure TeamDB (σ : Type) where
  Add : Team → σ → Option Err × σ
  Get : String → σ → Except Err Team × σ

/-- The interface `core.UserDB`. -/
structure UserDB (σ : Type) where
  UpdateIsActive : String → Bool → σ → Except Err User × σ

/-- The interface `core.PRDB`. -/
structure PRDB (σ : Type) where
  Get : String → σ → Except Err PullRequest × σ
  GetActiveTeamMemberIDsByUserID : String → σ → Except Err (List String) × σ
  Add : String → String → String → List String → σ → Option Err × σ
  UpdateMerged : String → σ → Except Err PullRequest × σ
  UpdateReviewer : String → String → String → σ → Except Err PullRequest × σ
  GetByReviewer : String → σ → Except Err (List PullRequestShort) × σ

/-- The interface `core.TeamPort`. -/
structure TeamPort (σ : Type) where
  Create : Team → σ → Option Err × σ
  Get : String → σ → Except Err Team × σ

/-- The interface `core.UserPort`. -/
structure UserPort (σ : Type) where
  SetFlag : String → Bool → σ → Except Err User × σ

/-- The interface `core.PRPort`. -/
structure PRPort (σ : Type) where
  Create : String → String → String → σ → Except Err PullRequest × σ
  Merge : String → σ → Except Err PullRequest × σ
  Reassign : String → String → σ → Except Err (PullRequest × String) × σ
  ListByReviewer : String → σ → Except Err (List PullRequestShort) × σ

/-! ## core/service.go: the services -/

def TeamService.Create {σ : Type} (db : TeamDB σ) (team : Team) (s : σ) : Option Err × σ :=
  match db.Add team s with
  | (some err, s) => (some err, s)
  | (none, s) => (none, s)

def TeamService.Get {σ : Type} (db : TeamDB σ) (name : String) (s : σ) : Except Err Team × σ :=
  match db.Get name s with
  | (.error err, s) => (.error err, s)
  | (.ok team, s) => (.ok team, s)

def UserService.SetFlag {σ : Type} (db : UserDB σ) (id : String) (isActive : Bool) (s : σ) :
    Except Err User × σ :=
  match db.UpdateIsActive id isActive s with
  | (.error err, s) => (.error err, s)
  | (.ok user, s) => (.ok user, s)

def PRService.Create {σ : Type} (db : PRDB σ) (rnd : Nat → Nat)
    (prID name authorID : String) (s : σ) : Except Err PullRequest × σ :=
  match db.GetActiveTeamMemberIDsByUserID authorID s with
  | (.error err, s) => (.error err, s)
  | (.ok teamMembersIDs, s) =>
    let teamMembersIDs := removeByValue teamMembersIDs authorID
    let reviewers := getRandomStrings rnd teamMembersIDs 2
    match db.Add prID name authorID reviewers s with
    | (some err, s) => (.error err, s)
    | (none, s) =>
      (.ok { ID := prID, Name := name, AuthorID := authorID, Status := "OPEN",
             Reviewers := reviewers, MergedAt := none }, s)

def PRService.Merge {σ : Type} (db : PRDB σ) (id : String) (s : σ) :
    Except Err PullRequest × σ :=
  match db.UpdateMerged id s with
  | (.error err, s) => (.error err, s)
  | (.ok pullReq, s) => (.ok pullReq, s)

def PRService.Reassign {σ : Type} (db : PRDB σ) (rnd : Nat → Nat)
    (prID oldReviewerID : String) (s : σ) : Except Err (PullRequest × String) × σ :=
  match db.Get prID s with
  | (.error err, s) => (.error err, s)
  | (.ok currentPR, s) =>
    if currentPR.Status == "MERGED" then (.error .ErrAlredyMerged, s)
    else
      let isAssigned := currentPR.Reviewers.contains oldReviewerID
      if !isAssigned then (.error .ErrNotAssigned, s)
      else
        match db.GetActiveTeamMemberIDsByUserID oldReviewerID s with
        | (.error err, s) => (.error err, s)
        | (.ok teamMembersIDs, s) =>
          let teamMembersIDs := currentPR.Reviewers.foldl removeByValue teamMembersIDs
          let teamMembersIDs := removeByValue teamMembersIDs currentPR.AuthorID
          if teamMembersIDs.length < 1 then (.error .ErrNoCandidate, s)
          else
            match getRandomStrings rnd teamMembersIDs 1 with
            | [] => (.error (.panic "index out of range [0] with length 0"), s)
            | newReviewerID :: _ =>
              match db.UpdateReviewer prID oldReviewerID newReviewerID s with
              | (.error err, s) => (.error err, s)
              | (.ok pullReq, s) => (.ok (pullReq, newReviewerID), s)

def PRService.ListByReviewer {σ : Type} (db : PRDB σ) (reviewerID : String) (s : σ) :
    Except Err (List PullRequestShort) × σ :=
  match db.GetByReviewer reviewerID s with
  | (.error err, s) => (.error err, s)
  | (.ok pullReqs, s) => (.ok pullReqs, s)

def NewTeamService {σ : Type} (db : TeamDB σ) : TeamPort σ where
  Create := TeamService.Create db
  Get := TeamService.Get db

def NewUserService {σ : Type} (db : UserDB σ) : UserPort σ where
  SetFlag := UserService.SetFlag db

/-- The service of `NewPRService(log, db)`; `rnd` is what the global random
source yields during the call that is made. -/
def NewPRService {σ : Type} (db : PRDB σ) (rnd : Nat → Nat) : PRPort σ where
  Create := PRService.Create db rnd
  Merge := PRService.Merge db
  Reassign := PRService.Reassign db rnd
  ListByReviewer := PRService.ListByReviewer db

/-! ## adapters/db/storage.go -/

namespace db

/-- A row of table `users`: the struct `User` (and `UserInsert`) of `storage.go`. -/
structure User where
  ID : String
  Name : String
  TeamName : String
  IsActive : Bool
  deriving DecidableEq, Repr

/-- A row of table `prs`: the struct `PullRequest` of `storage.go`. -/
structure PullRequest where
  ID : String
  Name : String
  AuthorID : String
  Status : String
  Reviewers : List String
  MergedAt : Option Nat
  deriving DecidableEq, Repr

/-- The database behind `DB.conn`: the rows of the three tables, in the order a
`SELECT` returns them, and the clock that `NOW()` reads. -/
structure DB where
  teams : List String
  users : List User
  prs : List PullRequest
  clock : Nat
  deriving DecidableEq, Repr

/-- Modelled from the spec: the table definitions are not among the sources.
Spec 3, Team: "name: string (unique key)"; the `INSERT INTO teams` reports
`UniqueViolation` when the name is taken. -/
def teamsUniqueViolation (d : DB) (name : String) : Bool :=
  d.teams.contains name

/-- Modelled from the spec: the table definitions are not among the sources.
Spec 4.1, insertPullRequest "fails with AlreadyExists (duplicate id)"; the
`INSERT INTO prs` reports `UniqueViolation` when the id is taken. -/
def prsUniqueViolation (d : DB) (prID : String) : Bool :=
  d.prs.any (fun r => r.ID == prID)

/-- Modelled from the spec: the table definitions are not among the sources.
Spec 4.1, insertPullRequest fails with "NotFound (author/team missing)"; the
`INSERT INTO prs` reports `ForeignKeyViolation` when no user has the author id. -/
def prsForeignKeyViolation (d : DB) (authorID : String) : Bool :=
  !(d.users.any (fun u => u.ID == authorID))

/-- One proposed row of `INSERT INTO users ... ON CONFLICT (id) DO UPDATE SET
name, is_active, team_name = EXCLUDED...`: the row with that id is overwritten,
or the row is added. -/
def upsertUser (users : List User) (u : User) : List User :=
  if users.any (fun r => r.ID == u.ID) then users.map (fun r => if r.ID == u.ID then u else r)
  else users ++ [u]

/-- The method `TeamDB.Add`: one transaction, rolled back on any error. An
`ON CONFLICT DO UPDATE` statement that proposes one id twice is rejected by
PostgreSQL. -/
def TeamDB.Add (team : Team) (d : DB) : Option Err × DB :=
  if teamsUniqueViolation d team.Name then (some .ErrAlreadyExists, d)
  else
    let d1 := { d with teams := d.teams ++ [team.Name] }
    if team.Members.length > 0 then
      let insertUsers : List User := team.Members.map (fun member =>
        { ID := member.ID, Name := member.Name, IsActive := member.IsActive,
          TeamName := team.Name })
      if (insertUsers.map User.ID).Nodup then
        (none, { d1 with users := insertUsers.foldl upsertUser d1.users })
      else
        (some (.other "ON CONFLICT DO UPDATE command cannot affect row a second time"), d)
    else (none, d1)

/-- The method `TeamDB.Get`. -/
def TeamDB.Get (name : String) (d : DB) : Except Err Team × DB :=
  match d.teams.find? (fun t => t == name) with
  | none => (.error .ErrNotFound, d)
  | some teamName =>
    let members := d.users.filter (fun u => u.TeamName == name)
    let coreMembers : List TeamMember :=
      members.map (fun m => { ID := m.ID, Name := m.Name, IsActive := m.IsActive })
    (.ok { Name := teamName, Members := coreMembers }, d)

/-- The method `UserDB.UpdateIsActive`:
`UPDATE users SET is_active = $1 WHERE id = $2 RETURNING ...`. -/
def UserDB.UpdateIsActive (id : String) (isActive : Bool) (d : DB) : Except Err PullReq.User × DB :=
  let users := d.users.map (fun u => if u.ID == id then { u with IsActive := isActive } else u)
  match users.find? (fun u => u.ID == id) with
  | none => (.error .ErrNotFound, d)
  | some user =>
    (.ok { ID := user.ID, Name := user.Name, TeamName := user.TeamName,
           IsActive := user.IsActive }, { d with users := users })

/-- The method `PRDB.Get`. -/
def PRDB.Get (id : String) (d : DB) : Except Err PullReq.PullRequest × DB :=
  match d.prs.find? (fun r => r.ID == id) with
  | none => (.error .ErrNotFound, d)
  | some pullReq =>
    (.ok { ID := pullReq.ID, Name := pullReq.Name, AuthorID := pullReq.AuthorID,
           Status := pullReq.Status, Reviewers := pullReq.Reviewers,
           MergedAt := pullReq.MergedAt }, d)

/-- The method `PRDB.GetActiveTeamMemberIDsByUserID`. -/
def PRDB.GetActiveTeamMemberIDsByUserID (authorID : String) (d : DB) :
    Except Err (List String) × DB :=
  match d.users.find? (fun u => u.ID == authorID) with
  | none => (.error .ErrNotFound, d)
  | some u =>
    let teamName := u.TeamName
    let ids := (d.users.filter (fun r => r.TeamName == teamName && r.IsActive == true)).map
      (fun r => r.ID)
    (.ok ids, d)

/-- The method `PRDB.Add`. -/
def PRDB.Add (prID name authorID : String) (reviewersID : List String) (d : DB) :
    Option Err × DB :=
  if prsUniqueViolation d prID then (some .ErrAlreadyExists, d)
  else if prsForeignKeyViolation d authorID then (some .ErrNotFound, d)
  else
    (none, { d with prs := d.prs ++ [{ ID := prID, Name := name, AuthorID := authorID,
                                       Status := "OPEN", Reviewers := reviewersID,
                                       MergedAt := none }] })

/-- SQL `COALESCE(merged_at, NOW())`. -/
def COALESCE (merged_at : Option Nat) (now : Nat) : Option Nat :=
  match merged_at with
  | some t => some t
  | none => some now

/-- The method `PRDB.UpdateMerged`:
`UPDATE prs SET status = 'MERGED', merged_at = COALESCE(merged_at, NOW())
WHERE id = $1 RETURNING ...`. -/
def PRDB.UpdateMerged (id : String) (d : DB) : Except Err PullReq.PullRequest × DB :=
  let prs := d.prs.map (fun r =>
    if r.ID == id then { r with Status := "MERGED", MergedAt := COALESCE r.MergedAt d.clock }
    else r)
  match prs.find? (fun r => r.ID == id) with
  | none => (.error .ErrNotFound, d)
  | some pullReq =>
    (.ok { ID := pullReq.ID, Name := pullReq.Name, AuthorID := pullReq.AuthorID,
           Status := pullReq.Status, Reviewers := pullReq.Reviewers,
           MergedAt := pullReq.MergedAt }, { d with prs := prs })

/-- SQL `array_replace(reviewers, $2, $3)`. -/
def array_replace (reviewers : List String) (old new : String) : List String :=
  reviewers.map (fun x => if x == old then new else x)

/-- The method `PRDB.UpdateReviewer`: a `SELECT status, reviewers`, the two checks,
then `UPDATE prs SET reviewers = array_replace(reviewers, $2, $3) WHERE id = $1
RETURNING ...`. -/
def PRDB.UpdateReviewer (prID oldReviewerID newReviewerID : String) (d : DB) :
    Except Err PullReq.PullRequest × DB :=
  match d.prs.find? (fun r => r.ID == prID) with
  | none => (.error .ErrNotFound, d)
  | some current =>
    if current.Status == "MERGED" then (.error .ErrAlredyMerged, d)
    else if !current.Reviewers.contains oldReviewerID then (.error .ErrNotAssigned, d)
    else
      let prs := d.prs.map (fun r =>
        if r.ID == prID then
          { r with Reviewers := array_replace r.Reviewers oldReviewerID newReviewerID }
        else r)
      match prs.find? (fun r => r.ID == prID) with
      | none => (.error (.other "sql: no rows in result set"), d)
      | some updatedPR =>
        (.ok { ID := updatedPR.ID, Name := updatedPR.Name, AuthorID := updatedPR.AuthorID,
               Status := updatedPR.Status, Reviewers := updatedPR.Reviewers,
               MergedAt := updatedPR.MergedAt }, { d with prs := prs })

/-- The method `PRDB.GetByReviewer`: `SELECT ... WHERE $1 = ANY(reviewers)`. -/
def PRDB.GetByReviewer (reviewerID : String) (d : DB) :
    Except Err (List PullRequestShort) × DB :=
  let prs := d.prs.filter (fun r => r.Reviewers.contains reviewerID)
  let result : List PullRequestShort :=
    prs.map (fun r => { ID := r.ID, Name := r.Name, AuthorID := r.AuthorID, Status := r.Status })
  (.ok result, d)

/-- The row of `prs` as the `core.PullRequest` that the adapter returns. -/
def PullRequest.toCore (r : PullRequest) : PullReq.PullRequest :=
  { ID := r.ID, Name := r.Name, AuthorID := r.AuthorID, Status := r.Status,
    Reviewers := r.Reviewers, MergedAt := r.MergedAt }

/-- The row update of `UpdateMerged`. -/
def mergeRow (id : String) (now : Nat) (r : PullRequest) : PullRequest :=
  if r.ID == id then { r with Status := "MERGED", MergedAt := COALESCE r.MergedAt now } else r

/-- The row update of `UpdateReviewer`. -/
def replaceRow (prID oldReviewerID newReviewerID : String) (r : PullRequest) : PullRequest :=
  if r.ID == prID then
    { r with Reviewers := array_replace r.Reviewers oldReviewerID newReviewerID }
  else r

/-- The team of user `id`, as `SELECT team_name FROM users WHERE id = $1` reads it. -/
def teamOf (d : DB) (id : String) : Option String :=
  (d.users.find? (fun u => u.ID == id)).map User.TeamName

/-- Whether `id` is an active member of team `teamName`: some row of `users` has
that id, that team name and `is_active = TRUE`. -/
def activeMember (d : DB) (teamName id : String) : Bool :=
  d.users.any (fun u => u.ID == id && u.TeamName == teamName && u.IsActive)

/-- The first statement of `PRDB.UpdateReviewer`, `SELECT status, reviewers FROM prs
WHERE id = $1`, and the two checks made in Go on what it read; `none` when the
method goes on to its second statement. -/
def PRDB.UpdateReviewerSelect (prID oldReviewerID : String) (d : DB) : Option Err :=
  match d.prs.find? (fun r => r.ID == prID) with
  | none => some .ErrNotFound
  | some current =>
    if current.Status == "MERGED" then some .ErrAlredyMerged
    else if !current.Reviewers.contains oldReviewerID then some .ErrNotAssigned
    else none

/-- The second statement of `PRDB.UpdateReviewer`, `UPDATE prs SET reviewers =
array_replace(reviewers, $2, $3) WHERE id = $1 RETURNING ...`. Its `WHERE` clause
names the id only. -/
def PRDB.UpdateReviewerUpdate (prID oldReviewerID newReviewerID : String) (d : DB) :
    Except Err PullReq.PullRequest × DB :=
  let prs := d.prs.map (fun r =>
    if r.ID == prID then
      { r with Reviewers := array_replace r.Reviewers oldReviewerID newReviewerID }
    else r)
  match prs.find? (fun r => r.ID == prID) with
  | none => (.error (.other "sql: no rows in result set"), d)
  | some updatedPR =>
    (.ok { ID := updatedPR.ID, Name := updatedPR.Name, AuthorID := updatedPR.AuthorID,
           Status := updatedPR.Status, Reviewers := updatedPR.Reviewers,
           MergedAt := updatedPR.MergedAt }, { d with prs := prs })

/-- The value of `NewTeamDB(db)` as a `core.TeamDB`. -/
def NewTeamDB : PullReq.TeamDB DB where
  Add := TeamDB.Add
  Get := TeamDB.Get

/-- The value of `NewUserDB(db)` as a `core.UserDB`. -/
def NewUserDB : PullReq.UserDB DB where
  UpdateIsActive := UserDB.UpdateIsActive

/-- The value of `NewPRDB(db)` as a `core.PRDB`. -/
def NewPRDB : PullReq.PRDB DB where
  Get := PRDB.Get
  GetActiveTeamMemberIDsByUserID := PRDB.GetActiveTeamMemberIDsByUserID
  Add := PRDB.Add
  UpdateMerged := PRDB.UpdateMerged
  UpdateReviewer := PRDB.UpdateReviewer
  GetByReviewer := PRDB.GetByReviewer

/-- The database before any request: three empty tables. -/
def empty : DB := { teams := [], users := [], prs := [], clock := 0 }

end db

/-! ## A storage that records the calls made on it -/

/-- A call on the `core.PRDB` interface, with its arguments. -/
inductive Call where
  | Get (id : String)
  | GetActiveTeamMemberIDsByUserID (userID : String)
  | Add (prID name authorID : String) (reviewersID : List String)
  | UpdateMerged (id : String)
  | UpdateReviewer (prID oldReviewerID newReviewerID : String)
  | GetByReviewer (reviewerID : String)
  deriving DecidableEq, Repr

/-- The storage `db` with a journal: every call behaves as on `db` and is appended
to the list of calls made so far. -/
def PRDB.recorded {σ : Type} (db : PRDB σ) : PRDB (σ × List Call) where
  Get id s := ((db.Get id s.1).1, ((db.Get id s.1).2, s.2 ++ [Call.Get id]))
  GetActiveTeamMemberIDsByUserID userID s :=
    ((db.GetActiveTeamMemberIDsByUserID userID s.1).1,
      ((db.GetActiveTeamMemberIDsByUserID userID s.1).2,
        s.2 ++ [Call.GetActiveTeamMemberIDsByUserID userID]))
  Add prID name authorID reviewersID s :=
    ((db.Add prID name authorID reviewersID s.1).1,
      ((db.Add prID name authorID reviewersID s.1).2,
        s.2 ++ [Call.Add prID name authorID reviewersID]))
  UpdateMerged id s :=
    ((db.UpdateMerged id s.1).1, ((db.UpdateMerged id s.1).2, s.2 ++ [Call.UpdateMerged id]))
  UpdateReviewer prID oldReviewerID newReviewerID s :=
    ((db.UpdateReviewer prID oldReviewerID newReviewerID s.1).1,
      ((db.UpdateReviewer prID oldReviewerID newReviewerID s.1).2,
        s.2 ++ [Call.UpdateReviewer prID oldReviewerID newReviewerID]))
  GetByReviewer reviewerID s :=
    ((db.GetByReviewer reviewerID s.1).1,
      ((db.GetByReviewer reviewerID s.1).2, s.2 ++ [Call.GetByReviewer reviewerID]))

/-! ## adapters/rest/api.go -/

namespace rest

structure ErrorDetail where
  Code : String
  Message : String
  deriving DecidableEq, Repr

structure ErrorResponse where
  Error : ErrorDetail
  deriving DecidableEq, Repr

/-- The struct `rest.PullRequest` (with the embedded `PullRequestShort` inlined). -/
structure PullRequest where
  ID : String
  Name : String
  AuthorID : String
  Status : String
  Reviewers : List String
  MergedAt : Option Nat
  deriving DecidableEq, Repr

/-- The struct `rest.TeamMember`. -/
structure TeamMember where
  ID : String
  Name : String
  IsActive : Bool
  deriving DecidableEq, Repr

/-- The struct `rest.Team`. -/
structure Team where
  Name : String
  Members : List TeamMember
  deriving DecidableEq, Repr

structure TeamResponse where
  Team : Team
  deriving DecidableEq, Repr

structure PullRequestResponse where
  PullRequest : PullRequest
  deriving DecidableEq, Repr

structure MergePRReq where
  PRID : String
  deriving DecidableEq, Repr

structure ReassignPRReq where
  PRID : String
  OldUserID : String
  deriving DecidableEq, Repr

structure ReassignResponse where
  PR : PullRequest
  NewRev : String
  deriving DecidableEq, Repr

/-- What a handler does to its `http.ResponseWriter`, in order: `WriteHeader`
calls and bodies written (plain text by `http.Error`, JSON by an encoder). -/
inductive Write where
  | WriteHeader (status : Nat)
  | Text (msg : String)
  | JSONError (e : ErrorResponse)
  | JSONReassign (r : ReassignResponse)
  | JSONTeam (r : TeamResponse)
  | JSONPullRequest (r : PullRequestResponse)
  deriving DecidableEq, Repr

def StatusBadRequest : Nat := 400
def StatusNotFound : Nat := 404
def StatusConflict : Nat := 409
def StatusInternalServerError : Nat := 500
def StatusOK : Nat := 200
def StatusCreated : Nat := 201

def codeTeamExists : String := "TEAM_EXISTS"
def codePrMerged : String := "PR_MERGED"
def codeNotAssigned : String := "NOT_ASSIGNED"
def codeNoCandidate : String := "NO_CANDIDATE"
def codeNotFound : String := "NOT_FOUND"

/-- The function `writeJSONError(w, status, code, message)`. -/
def writeJSONError (status : Nat) (code message : String) : List Write :=
  [Write.WriteHeader status, Write.JSONError { Error := { Code := code, Message := message } }]

/-- The library call `http.Error(w, msg, code)`. -/
def httpError (msg : String) (code : Nat) : List Write :=
  [Write.WriteHeader code, Write.Text msg]

/-- The status line a client receives: the first `WriteHeader`, or 200 when a body
is written before any. -/
def statusOf : List Write → Nat
  | Write.WriteHeader status :: _ => status
  | _ => StatusOK

/-- The handler of `NewReassignPRHandler(log, pr)`; `req` is the decoded body,
`none` when decoding fails. -/
def NewReassignPRHandler {σ : Type} (pr : PRPort σ) (req : Option ReassignPRReq) (s : σ) :
    List Write × σ :=
  match req with
  | none => (httpError "Bad request body" StatusBadRequest, s)
  | some req =>
    match pr.Reassign req.PRID req.OldUserID s with
    | (.error err, s) =>
      if err = Err.ErrNotFound then
        (writeJSONError StatusNotFound codeNotFound "PR/user not found", s)
      else if err = Err.ErrAlredyMerged then
        (writeJSONError StatusConflict codePrMerged "PR merged", s)
      else if err = Err.ErrNotAssigned then
        (writeJSONError StatusConflict codeNotAssigned "Reviewer is not assigned to this PR", s)
      else if err = Err.ErrNoCandidate then
        (writeJSONError StatusConflict codeNoCandidate "No active replacement candidate in team", s)
      else (httpError "Internal error" StatusInternalServerError, s)
    | (.ok (pullReq, newRev), s) =>
      let pullReqResp : PullRequest :=
        { ID := pullReq.ID, Name := pullReq.Name, AuthorID := pullReq.AuthorID,
          Status := pullReq.Status, Reviewers := pullReq.Reviewers, MergedAt := none }
      ([Write.JSONReassign { PR := pullReqResp, NewRev := newRev }], s)

/-- The handler of `NewAddTeamHandler(log, t)`; `req` is the decoded body, `none`
when decoding fails. The branch for `ErrAlreadyExists` returns; the branch for
any other error calls `http.Error` and does not return, so the code below the
`if err != nil` block runs after it as it does after a success. -/
def NewAddTeamHandler {σ : Type} (t : TeamPort σ) (req : Option Team) (s : σ) :
    List Write × σ :=
  match req with
  | none => (httpError "Bad request body" StatusBadRequest, s)
  | some team =>
    let members : List PullReq.TeamMember :=
      team.Members.map (fun m => { ID := m.ID, Name := m.Name, IsActive := m.IsActive })
    match t.Create { Name := team.Name, Members := members } s with
    | (err, s) =>
      if err = some Err.ErrAlreadyExists then
        (writeJSONError StatusBadRequest codeTeamExists "Team already exists", s)
      else
        let written : List Write :=
          match err with
          | some _ => httpError "Internal error" StatusInternalServerError
          | none => []
        (written ++ [Write.WriteHeader StatusCreated, Write.JSONTeam { Team := team }], s)

/-- The handler of `NewMergePRHandler(log, pr)`; `req` is the decoded body, `none`
when decoding fails. The response struct is built from `ID`, `Name`, `AuthorID`,
`Status` and `Reviewers` of the merged PR; its field `MergedAt` is not
assigned and keeps its zero value `nil`. -/
def NewMergePRHandler {σ : Type} (pr : PRPort σ) (req : Option MergePRReq) (s : σ) :
    List Write × σ :=
  match req with
  | none => (httpError "Bad request body" StatusBadRequest, s)
  | some req =>
    match pr.Merge req.PRID s with
    | (.error err, s) =>
      if err = Err.ErrNotFound then
        (writeJSONError StatusNotFound codeNotFound "PR not found", s)
      else (httpError "Internal error" StatusInternalServerError, s)
    | (.ok pullReq, s) =>
      let pullReqResp : PullRequest :=
        { ID := pullReq.ID, Name := pullReq.Name, AuthorID := pullReq.AuthorID,
          Status := pullReq.Status, Reviewers := pullReq.Reviewers, MergedAt := none }
      ([Write.JSONPullRequest { PullRequest := pullReqResp }], s)

end rest

/-! ## The service as a transition system -/

/-- One request served by `main.go` on the PostgreSQL storage, or a move of the
clock between two requests. -/
inductive Op where
  | teamAdd (team : Team)
  | setIsActive (id : String) (isActive : Bool)
  | create (rnd : Nat → Nat) (prID name authorID : String)
  | merge (id : String)
  | reassign (rnd : Nat → Nat) (prID oldReviewerID : String)
  | tick (now : Nat)

/-- The database after one request. -/
def step (d : db.DB) : Op → db.DB
  | .teamAdd team => ((NewTeamService db.NewTeamDB).Create team d).2
  | .setIsActive id isActive => ((NewUserService db.NewUserDB).SetFlag id isActive d).2
  | .create rnd prID name authorID => ((NewPRService db.NewPRDB rnd).Create prID name authorID d).2
  | .merge id => ((NewPRService db.NewPRDB (fun _ => 0)).Merge id d).2
  | .reassign rnd prID oldReviewerID =>
    ((NewPRService db.NewPRDB rnd).Reassign prID oldReviewerID d).2
  | .tick now => { d with clock := now }

/-- The database after a sequence of requests served one at a time. -/
def run (d : db.DB) (ops : List Op) : db.DB :=
  ops.foldl step d

/-- The invariant of the store: user ids and PR ids are keys, every reviewer list is
duplicate-free, without the author and of length at most 2, and a merged PR has
its `merged_at` set. -/
structure Inv (d : db.DB) : Prop where
  users_nodup : (d.users.map db.User.ID).Nodup
  prs_nodup : (d.prs.map db.PullRequest.ID).Nodup
  reviewers_ok : ∀ r ∈ d.prs,
    r.Reviewers.Nodup ∧ r.AuthorID ∉ r.Reviewers ∧ r.Reviewers.length ≤ 2
  merged_at : ∀ r ∈ d.prs, r.Status = "MERGED" → r.MergedAt ≠ none

/-! ## Example stores -/

/-- A team of four active members. -/
def exTeam : Team :=
  { Name := "T",
    Members := [⟨"A", "a", true⟩, ⟨"R1", "r1", true⟩, ⟨"R2", "r2", true⟩, ⟨"R3", "r3", true⟩] }

/-- A fixed outcome of the random source: the draw at step `i` is `(i + 1) % (i + 1) = 0`. -/
def exRnd : Nat → Nat := fun i => i + 1

/-- The store after the team is added. -/
def exTeamDB : db.DB := run db.empty [.teamAdd exTeam]

/-- The store after `A` opens `pr1`; the reviewers are `R2` and `R3`. -/
def exOpenDB : db.DB := run exTeamDB [.create exRnd "pr1" "x" "A"]

/-- The store after `pr1` is merged at time 7. -/
def exMergedDB : db.DB := run exOpenDB [.tick 7, .merge "pr1"]

/-- A team of three active members. -/
def exSmallTeam : Team :=
  { Name := "S", Members := [⟨"B", "b", true⟩, ⟨"R4", "r4", true⟩, ⟨"R5", "r5", true⟩] }

/-- The store after `B` opens `pr2` in the small team: every teammate of `B` reviews. -/
def exSmallDB : db.DB := run db.empty [.teamAdd exSmallTeam, .create exRnd "pr2" "y" "B"]

/-- The store after `R2` is re-added as a member of a new team `U`, while `pr1` of
author `A` (team `T`) has the reviewers `R2` and `R3`. -/
def exMovedDB : db.DB :=
  run exOpenDB [.teamAdd ⟨"U", [⟨"R2", "r2", true⟩, ⟨"X", "x", true⟩]⟩]

/-- A run of `PRDB.UpdateReviewer` during which the requests `between` are served
after its `SELECT` and before its `UPDATE`: the method sends its two statements
to the connection pool one after the other, outside any transaction. -/
def UpdateReviewerInterleaved (prID oldReviewerID newReviewerID : String)
    (between : List Op) (d : db.DB) : Except Err PullRequest × db.DB :=
  match db.PRDB.UpdateReviewerSelect prID oldReviewerID d with
  | some err => (.error err, d)
  | none => db.PRDB.UpdateReviewerUpdate prID oldReviewerID newReviewerID (run d between)

/-- A request body whose two members share one user id: the `INSERT ... ON CONFLICT`
of `TeamDB.Add` is rejected by the database with an error that is not
`ErrAlreadyExists`. -/
def exTwinTeam : rest.Team :=
  { Name := "D", Members := [⟨"u1", "one", true⟩, ⟨"u1", "two", true⟩] }

/-! ## Lemmas on the slice helpers -/

theorem swap_length (src : List String) (i j : Nat) : (swap src i j).length = src.length := by
  simp [swap]

theorem swap_perm (src : List String) (i j : Nat) (hi : i < src.length) (hj : j < src.length) :
    (swap src i j).Perm src := by
  rw [List.perm_iff_count]
  intro a
  unfold swap
  rw [List.count_set _ _ _ _ (by simpa using hj), List.count_set _ _ _ _ hi]
  simp only [List.getD_eq_getElem?_getD, List.getElem?_eq_getElem hi,
    List.getElem?_eq_getElem hj, Option.getD_some]
  by_cases hij : i = j
  · subst hij
    simp only [List.getElem_set_self]
    have := List.boole_getElem_le_count a src i hi
    split_ifs at * <;> omega
  · rw [List.getElem_set_ne hij]
    have h1 := List.boole_getElem_le_count a src i hi
    have h2 := List.boole_getElem_le_count a src j hj
    split_ifs at * <;> omega

theorem shuffleFrom_length (rnd : Nat → Nat) (i : Nat) (src : List String) :
    (shuffleFrom rnd i src).length = src.length := by
  induction i generalizing src with
  | zero => rfl
  | succ i ih => simp [shuffleFrom, ih, swap_length]

theorem shuffleFrom_perm (rnd : Nat → Nat) (i : Nat) (src : List String)
    (hi : i < src.length) : (shuffleFrom rnd i src).Perm src := by
  induction i generalizing src with
  | zero => exact List.Perm.refl _
  | succ i ih =>
    have hj : rnd (i + 1) % (i + 2) < src.length :=
      Nat.lt_of_lt_of_le (Nat.mod_lt _ (by omega)) (by omega)
    have hp := swap_perm src (i + 1) (rnd (i + 1) % (i + 2)) hi hj
    have hl := swap_length src (i + 1) (rnd (i + 1) % (i + 2))
    exact (ih _ (by omega)).trans hp

theorem Shuffle_perm (rnd : Nat → Nat) (src : List String) : (Shuffle rnd src).Perm src := by
  unfold Shuffle
  cases src with
  | nil => exact List.Perm.refl _
  | cons a t => exact shuffleFrom_perm rnd _ _ (by simp)

theorem Shuffle_length (rnd : Nat → Nat) (src : List String) :
    (Shuffle rnd src).length = src.length := (Shuffle_perm rnd src).length_eq

/-- What `getRandomStrings` returns, without the case split on the empty pool. -/
theorem getRandomStrings_eq (rnd : Nat → Nat) (src : List String) (n : Nat) :
    getRandomStrings rnd src n = (Shuffle rnd src).take n := by
  unfold getRandomStrings
  by_cases h : src.length = 0
  · have : src = [] := List.length_eq_zero.mp h
    subst this
    simp [Shuffle, shuffleFrom]
  · simp only [h, if_false]
    split
    · rename_i hlt
      rw [List.take_of_length_le (Nat.le_refl _), List.take_of_length_le (Nat.le_of_lt hlt)]
    · rfl

theorem getRandomStrings_length (rnd : Nat → Nat) (src : List String) (n : Nat) :
    (getRandomStrings rnd src n).length = min n src.length := by
  rw [getRandomStrings_eq, List.length_take, Shuffle_length]

theorem getRandomStrings_mem (rnd : Nat → Nat) (src : List String) (n : Nat) (x : String)
    (hx : x ∈ getRandomStrings rnd src n) : x ∈ src := by
  rw [getRandomStrings_eq] at hx
  exact (Shuffle_perm rnd src).mem_iff.mp (List.mem_of_mem_take hx)

theorem getRandomStrings_nodup (rnd : Nat → Nat) (src : List String) (n : Nat)
    (hnd : src.Nodup) : (getRandomStrings rnd src n).Nodup := by
  rw [getRandomStrings_eq]
  exact ((Shuffle_perm rnd src).nodup_iff.mpr hnd).sublist (List.take_sublist _ _)

/-- The loop invariant of `removeByValue` after `i` iterations: the first
`len(result)` cells hold the kept elements of `src[:i]`, and the cells from
`i` on are still those of `src`. -/
theorem removeByValue_loop (src : List String) (val : String) (i : Nat) (hi : i ≤ src.length) :
    let st := (List.range i).foldl (removeByValueStep val) (src, 0)
    st.1.take st.2 = (src.take i).filter (fun v => v != val) ∧
      st.1.drop i = src.drop i ∧ st.2 ≤ i ∧ st.1.length = src.length := by
  induction i with
  | zero => simp
  | succ i ih =>
    obtain ⟨h1, h2, h3, h4⟩ := ih (by omega)
    have hil : i < src.length := by omega
    simp only [List.range_succ, List.foldl_append, List.foldl_cons, List.foldl_nil]
    generalize (List.range i).foldl (removeByValueStep val) (src, 0) = st at h1 h2 h3 h4
    obtain ⟨arr, w⟩ := st
    simp only at h1 h2 h3 h4
    have hv : arr.getD i "" = src[i] := by
      have : arr[i]? = src[i]? := by
        have := congrArg (fun l => l[0]?) h2
        simpa using this
      simp [List.getD_eq_getElem?_getD, this, List.getElem?_eq_getElem hil]
    have htk : src.take (i + 1) = src.take i ++ [src[i]] := by
      rw [List.take_succ, List.getElem?_eq_getElem hil]; rfl
    unfold removeByValueStep
    simp only [hv]
    by_cases hne : (src[i] != val) = true
    · rw [if_pos hne]
      have hw : w < arr.length := by omega
      refine ⟨?_, ?_, by simp only; omega, by simpa using h4⟩
      · rw [htk, List.filter_append, ← h1]
        simp only [List.filter_cons, hne, if_true, List.filter_nil]
        rw [List.take_succ, List.set_take, List.getElem?_set_self hw,
          List.set_eq_of_length_le (by simp)]
        rfl
      · simp only
        rw [List.drop_set_of_lt _ _ (by omega)]
        have := congrArg (fun l => l.drop 1) h2
        simpa using this
    · rw [if_neg hne]
      refine ⟨?_, ?_, by simp only; omega, h4⟩
      · rw [htk, List.filter_append, ← h1]
        simp [hne]
      · have := congrArg (fun l => l.drop 1) h2
        simpa using this

theorem removeByValue_eq_filter (src : List String) (val : String) :
    removeByValue src val = src.filter (fun v => v != val) := by
  have h := removeByValue_loop src val src.length (Nat.le_refl _)
  simp only [List.take_length] at h
  exact h.1

/-! ## Lemmas on the services -/

theorem mem_removeByValue (src : List String) (val x : String) :
    x ∈ removeByValue src val ↔ x ∈ src ∧ x ≠ val := by
  rw [removeByValue_eq_filter]
  simp

theorem removeByValue_nodup (src : List String) (val : String) (h : src.Nodup) :
    (removeByValue src val).Nodup := by
  rw [removeByValue_eq_filter]
  exact h.filter _

theorem removeByValue_length (src : List String) (val : String) :
    (removeByValue src val).length = src.countP (fun id => id != val) := by
  rw [removeByValue_eq_filter, List.countP_eq_length_filter]

theorem mem_foldl_removeByValue (revs src : List String) (x : String) :
    x ∈ revs.foldl removeByValue src ↔ x ∈ src ∧ x ∉ revs := by
  induction revs generalizing src with
  | nil => simp
  | cons r revs ih =>
    simp only [List.foldl_cons, ih, mem_removeByValue, List.mem_cons, not_or]
    tauto

theorem foldl_removeByValue_nodup (revs src : List String) (h : src.Nodup) :
    (revs.foldl removeByValue src).Nodup := by
  induction revs generalizing src with
  | nil => simpa using h
  | cons r revs ih => exact ih _ (removeByValue_nodup _ _ h)


/-- The draw of one id from a non-empty pool yields exactly one id of the pool. -/
theorem getRandomStrings_one (rnd : Nat → Nat) (pool : List String) (h : ¬ pool.length < 1) :
    ∃ x, getRandomStrings rnd pool 1 = [x] ∧ x ∈ pool := by
  have hl := getRandomStrings_length rnd pool 1
  have h1 : (getRandomStrings rnd pool 1).length = 1 := by omega
  obtain ⟨x, hx⟩ := List.length_eq_one.mp h1
  exact ⟨x, hx, getRandomStrings_mem rnd pool 1 x (by simp [hx])⟩

/-- The run of `Reassign` once the PR is fetched, is not merged, `oldReviewerID` is
assigned and the teammates are fetched. -/
theorem Reassign_after_lookup {σ : Type} (db : PRDB σ) (rnd : Nat → Nat)
    (prID oldReviewerID : String) (s s1 s2 : σ) (pr : PullRequest) (ids : List String)
    (hget : db.Get prID s = (.ok pr, s1)) (hst : pr.Status ≠ "MERGED")
    (hass : oldReviewerID ∈ pr.Reviewers)
    (hlookup : db.GetActiveTeamMemberIDsByUserID oldReviewerID s1 = (.ok ids, s2)) :
    PRService.Reassign db rnd prID oldReviewerID s =
      if (removeByValue (pr.Reviewers.foldl removeByValue ids) pr.AuthorID).length < 1 then
        (.error .ErrNoCandidate, s2)
      else
        match getRandomStrings rnd
            (removeByValue (pr.Reviewers.foldl removeByValue ids) pr.AuthorID) 1 with
        | [] => (.error (.panic "index out of range [0] with length 0"), s2)
        | newReviewerID :: _ =>
          match db.UpdateReviewer prID oldReviewerID newReviewerID s2 with
          | (.error err, s) => (.error err, s)
          | (.ok pullReq, s) => (.ok (pullReq, newReviewerID), s) := by
  have h1 : (pr.Status == "MERGED") = false := by simpa using hst
  have h2 : pr.Reviewers.contains oldReviewerID = true := by simpa using hass
  simp only [PRService.Reassign, hget, h1, h2, hlookup, Bool.not_true, Bool.false_eq_true,
    if_false]

/-- What a successful `Reassign` went through. -/
theorem Reassign_ok_inv {σ : Type} (db : PRDB σ) (rnd : Nat → Nat)
    (prID oldReviewerID : String) (s s3 : σ) (pr1 : PullRequest) (newID : String)
    (h : PRService.Reassign db rnd prID oldReviewerID s = (.ok (pr1, newID), s3)) :
    ∃ (pr : PullRequest) (s1 : σ) (ids : List String) (s2 : σ),
      db.Get prID s = (.ok pr, s1) ∧ pr.Status ≠ "MERGED" ∧ oldReviewerID ∈ pr.Reviewers ∧
      db.GetActiveTeamMemberIDsByUserID oldReviewerID s1 = (.ok ids, s2) ∧
      newID ∈ removeByValue (pr.Reviewers.foldl removeByValue ids) pr.AuthorID ∧
      db.UpdateReviewer prID oldReviewerID newID s2 = (.ok pr1, s3) := by
  rcases hget : db.Get prID s with ⟨e | pr, s1⟩
  · simp [PRService.Reassign, hget] at h
  · by_cases hst : pr.Status = "MERGED"
    · simp [PRService.Reassign, hget, hst] at h
    · by_cases hass : oldReviewerID ∈ pr.Reviewers
      · rcases hl : db.GetActiveTeamMemberIDsByUserID oldReviewerID s1 with ⟨e | ids, s2⟩
        · simp [PRService.Reassign, hget, hst, hass, hl] at h
        · rw [Reassign_after_lookup db rnd prID oldReviewerID s s1 s2 pr ids hget hst hass hl] at h
          split at h
          · simp at h
          · rename_i hpool
            obtain ⟨x, hx, hxm⟩ := getRandomStrings_one rnd _ hpool
            rw [hx] at h
            simp only at h
            rcases hu : db.UpdateReviewer prID oldReviewerID x s2 with ⟨e | pr2, s4⟩
            · simp [hu] at h
            · simp only [hu, Prod.mk.injEq, Except.ok.injEq] at h
              obtain ⟨⟨hp, hn⟩, hs⟩ := h
              subst hp hn hs
              exact ⟨pr, s1, ids, s2, rfl, hst, hass, hl, hxm, hu⟩
      · simp [PRService.Reassign, hget, hst, hass] at h

/-- The pool of `Reassign` is empty exactly when every teammate is a reviewer of the
PR or its author. -/
theorem pool_empty_iff (revs ids : List String) (author : String) :
    (removeByValue (revs.foldl removeByValue ids) author).length < 1 ↔
      ∀ id ∈ ids, id ∈ revs ∨ id = author := by
  rw [Nat.lt_one_iff, List.length_eq_zero, List.eq_nil_iff_forall_not_mem]
  simp only [mem_removeByValue, mem_foldl_removeByValue]
  constructor
  · intro h id hid
    by_contra hc
    push_neg at hc
    exact h id ⟨⟨hid, hc.1⟩, hc.2⟩
  · rintro h id ⟨⟨hid, hr⟩, ha⟩
    rcases h id hid with h1 | h1
    · exact hr h1
    · exact ha h1

theorem recorded_Get {σ : Type} (db : PRDB σ) (id : String) (s : σ) (log : List Call) :
    db.recorded.Get id (s, log) = ((db.Get id s).1, ((db.Get id s).2, log ++ [Call.Get id])) :=
  rfl

theorem recorded_lookup {σ : Type} (db : PRDB σ) (id : String) (s : σ) (log : List Call) :
    db.recorded.GetActiveTeamMemberIDsByUserID id (s, log) =
      ((db.GetActiveTeamMemberIDsByUserID id s).1,
        ((db.GetActiveTeamMemberIDsByUserID id s).2,
          log ++ [Call.GetActiveTeamMemberIDsByUserID id])) :=
  rfl

theorem recorded_UpdateReviewer {σ : Type} (db : PRDB σ) (a b c : String) (s : σ)
    (log : List Call) :
    db.recorded.UpdateReviewer a b c (s, log) =
      ((db.UpdateReviewer a b c s).1,
        ((db.UpdateReviewer a b c s).2, log ++ [Call.UpdateReviewer a b c])) :=
  rfl

/-- The `ErrNoCandidate` outcome of `Reassign` on any storage that never reports
`ErrNoCandidate` itself (`hstore`): it arises exactly when every teammate is a
reviewer or the author; the journal shows the two reads in that case and the
swap as third call otherwise. -/
theorem Reassign_no_candidate_of_storage {σ : Type} (db : PRDB σ) (rnd : Nat → Nat)
    (prID oldReviewerID : String) (s s1 s2 : σ) (pr : PullRequest) (ids : List String)
    (hget : db.Get prID s = (.ok pr, s1)) (hopen : pr.Status = "OPEN")
    (hass : oldReviewerID ∈ pr.Reviewers)
    (hlookup : db.GetActiveTeamMemberIDsByUserID oldReviewerID s1 = (.ok ids, s2))
    (hstore : ∀ newID : String,
      (db.UpdateReviewer prID oldReviewerID newID s2).1 ≠ .error .ErrNoCandidate) :
    ((PRService.Reassign db rnd prID oldReviewerID s).1 = .error .ErrNoCandidate ↔
      ∀ id ∈ ids, id ∈ pr.Reviewers ∨ id = pr.AuthorID) ∧
    ((∀ id ∈ ids, id ∈ pr.Reviewers ∨ id = pr.AuthorID) →
      PRService.Reassign db.recorded rnd prID oldReviewerID (s, []) =
        (.error .ErrNoCandidate,
          (s2, [Call.Get prID, Call.GetActiveTeamMemberIDsByUserID oldReviewerID]))) ∧
    (¬ (∀ id ∈ ids, id ∈ pr.Reviewers ∨ id = pr.AuthorID) →
      ∃ newID : String, newID ∈ ids ∧
        (PRService.Reassign db.recorded rnd prID oldReviewerID (s, [])).2 =
          ((db.UpdateReviewer prID oldReviewerID newID s2).2,
            [Call.Get prID, Call.GetActiveTeamMemberIDsByUserID oldReviewerID,
              Call.UpdateReviewer prID oldReviewerID newID])) := by
  have hst : pr.Status ≠ "MERGED" := by rw [hopen]; decide
  have hrun := Reassign_after_lookup db rnd prID oldReviewerID s s1 s2 pr ids hget hst hass hlookup
  have hgetR : db.recorded.Get prID (s, []) = (.ok pr, (s1, [Call.Get prID])) := by
    rw [recorded_Get, hget]; rfl
  have hlookupR : db.recorded.GetActiveTeamMemberIDsByUserID oldReviewerID (s1, [Call.Get prID]) =
      (.ok ids, (s2, [Call.Get prID, Call.GetActiveTeamMemberIDsByUserID oldReviewerID])) := by
    rw [recorded_lookup, hlookup]; rfl
  have hrunR := Reassign_after_lookup db.recorded rnd prID oldReviewerID (s, []) _ _ pr ids
    hgetR hst hass hlookupR
  refine ⟨?_, ?_, ?_⟩
  · rw [hrun, ← pool_empty_iff]
    constructor
    · intro h
      by_contra hpool
      rw [if_neg hpool] at h
      obtain ⟨x, hx, _⟩ := getRandomStrings_one rnd _ hpool
      rw [hx] at h
      simp only at h
      have := hstore x
      rcases hu : db.UpdateReviewer prID oldReviewerID x s2 with ⟨e | pr2, s4⟩
      · rw [hu] at h this
        simp only [Except.error.injEq] at h
        exact this (by rw [h])
      · rw [hu] at h
        simp at h
    · intro hpool
      rw [if_pos hpool]
  · intro hall
    rw [hrunR, if_pos ((pool_empty_iff _ _ _).mpr hall)]
  · intro hnall
    have hpool := fun h => hnall ((pool_empty_iff _ _ _).mp h)
    obtain ⟨x, hx, hxm⟩ := getRandomStrings_one rnd _ hpool
    rw [mem_removeByValue, mem_foldl_removeByValue] at hxm
    refine ⟨x, hxm.1.1, ?_⟩
    rw [hrunR, if_neg hpool, hx]
    simp only [recorded_UpdateReviewer]
    rcases hu : db.UpdateReviewer prID oldReviewerID x s2 with ⟨e | pr2, s4⟩ <;> rfl

/-! ## Lemmas on the storage adapter -/

namespace db

theorem mergeRow_ID (id : String) (now : Nat) (r : PullRequest) : (mergeRow id now r).ID = r.ID := by
  unfold mergeRow; split <;> rfl

theorem replaceRow_ID (a b c : String) (r : PullRequest) : (replaceRow a b c r).ID = r.ID := by
  unfold replaceRow; split <;> rfl

theorem find?_map_key (l : List PullRequest) (f : PullRequest → PullRequest) (id : String)
    (hf : ∀ r, (f r).ID = r.ID) :
    (l.map f).find? (fun r => r.ID == id) = (l.find? (fun r => r.ID == id)).map f := by
  rw [List.find?_map]
  have : ((fun r : PullRequest => r.ID == id) ∘ f) = (fun r => r.ID == id) := by
    funext r
    simp [hf]
  rw [this]

theorem Get_eq (id : String) (d : DB) :
    PRDB.Get id d =
      (match d.prs.find? (fun r => r.ID == id) with
        | none => .error .ErrNotFound
        | some r => .ok r.toCore, d) := by
  unfold PRDB.Get
  cases d.prs.find? (fun r => r.ID == id) <;> rfl

theorem lookup_eq (userID : String) (d : DB) :
    PRDB.GetActiveTeamMemberIDsByUserID userID d =
      (match d.users.find? (fun u => u.ID == userID) with
        | none => .error .ErrNotFound
        | some u => .ok ((d.users.filter
            (fun r => r.TeamName == u.TeamName && r.IsActive == true)).map User.ID), d) := by
  unfold PRDB.GetActiveTeamMemberIDsByUserID
  cases d.users.find? (fun u => u.ID == userID) <;> rfl

theorem UpdateMerged_eq (id : String) (d : DB) :
    PRDB.UpdateMerged id d =
      match d.prs.find? (fun r => r.ID == id) with
      | none => (.error .ErrNotFound, d)
      | some r => (.ok (mergeRow id d.clock r).toCore,
          { d with prs := d.prs.map (mergeRow id d.clock) }) := by
  have hm : (d.prs.map (mergeRow id d.clock)).find? (fun r => r.ID == id) =
      (d.prs.find? (fun r => r.ID == id)).map (mergeRow id d.clock) :=
    find?_map_key _ _ _ (mergeRow_ID id d.clock)
  unfold PRDB.UpdateMerged
  change (match (d.prs.map (mergeRow id d.clock)).find? (fun r => r.ID == id) with
    | none => _ | some pullReq => _) = _
  rw [hm]
  cases d.prs.find? (fun r => r.ID == id) <;> rfl

theorem UpdateReviewer_eq (prID old new : String) (d : DB) :
    PRDB.UpdateReviewer prID old new d =
      match d.prs.find? (fun r => r.ID == prID) with
      | none => (.error .ErrNotFound, d)
      | some current =>
        if current.Status == "MERGED" then (.error .ErrAlredyMerged, d)
        else if !current.Reviewers.contains old then (.error .ErrNotAssigned, d)
        else (.ok (replaceRow prID old new current).toCore,
          { d with prs := d.prs.map (replaceRow prID old new) }) := by
  have hm : (d.prs.map (replaceRow prID old new)).find? (fun r => r.ID == prID) =
      (d.prs.find? (fun r => r.ID == prID)).map (replaceRow prID old new) :=
    find?_map_key _ _ _ (replaceRow_ID prID old new)
  unfold PRDB.UpdateReviewer
  cases hf : d.prs.find? (fun r => r.ID == prID) with
  | none => rfl
  | some current =>
    simp only
    split
    · rfl
    · split
      · rfl
      · change (match (d.prs.map (replaceRow prID old new)).find? (fun r => r.ID == prID) with
          | none => _ | some updatedPR => _) = _
        rw [hm, hf]
        rfl

theorem UpdateReviewer_ne_ErrNoCandidate (prID old new : String) (d : DB) :
    (PRDB.UpdateReviewer prID old new d).1 ≠ .error .ErrNoCandidate := by
  rw [UpdateReviewer_eq]
  split
  · simp
  · split
    · simp
    · split <;> simp

theorem Get_ok (id : String) (d d1 : DB) (pr : PullReq.PullRequest)
    (h : PRDB.Get id d = (.ok pr, d1)) :
    d1 = d ∧ ∃ r, d.prs.find? (fun r => r.ID == id) = some r ∧ pr = r.toCore := by
  rw [Get_eq] at h
  cases hf : d.prs.find? (fun r => r.ID == id) with
  | none => simp [hf] at h
  | some r =>
    simp only [hf, Prod.mk.injEq, Except.ok.injEq] at h
    exact ⟨h.2.symm, r, rfl, h.1.symm⟩

theorem lookup_ok (userID : String) (d d1 : DB) (ids : List String)
    (h : PRDB.GetActiveTeamMemberIDsByUserID userID d = (.ok ids, d1)) :
    d1 = d ∧ ∃ u, d.users.find? (fun u => u.ID == userID) = some u ∧
      ids = (d.users.filter
        (fun r => r.TeamName == u.TeamName && r.IsActive == true)).map User.ID := by
  rw [lookup_eq] at h
  cases hf : d.users.find? (fun u => u.ID == userID) with
  | none => simp [hf] at h
  | some u =>
    simp only [hf, Prod.mk.injEq, Except.ok.injEq] at h
    exact ⟨h.2.symm, u, rfl, h.1.symm⟩

theorem UpdateReviewer_ok (prID old new : String) (d d1 : DB) (pr1 : PullReq.PullRequest)
    (h : PRDB.UpdateReviewer prID old new d = (.ok pr1, d1)) :
    ∃ current, d.prs.find? (fun r => r.ID == prID) = some current ∧
      current.Status ≠ "MERGED" ∧ old ∈ current.Reviewers ∧
      pr1 = (replaceRow prID old new current).toCore ∧
      d1 = { d with prs := d.prs.map (replaceRow prID old new) } := by
  rw [UpdateReviewer_eq] at h
  cases hf : d.prs.find? (fun r => r.ID == prID) with
  | none => simp [hf] at h
  | some current =>
    simp only [hf] at h
    split at h
    · simp at h
    · rename_i hst
      split at h
      · simp at h
      · rename_i hass
        simp only [Prod.mk.injEq, Except.ok.injEq] at h
        refine ⟨current, rfl, by simpa using hst, by simpa using hass, h.1.symm, h.2.symm⟩

theorem find?_ID (l : List PullRequest) (id : String) (r : PullRequest)
    (h : l.find? (fun r => r.ID == id) = some r) : r.ID = id := by
  have := List.find?_some h
  simpa using this

theorem COALESCE_idem (m : Option Nat) (t now : Nat) :
    COALESCE (COALESCE m t) now = COALESCE m t := by
  cases m <;> rfl

theorem mergeRow_idem (id : String) (t now : Nat) (r : PullRequest) :
    mergeRow id now (mergeRow id t r) = mergeRow id t r := by
  by_cases h : (r.ID == id) = true
  · simp only [mergeRow, h, if_true, COALESCE_idem]
  · have h1 : ∀ u, mergeRow id u r = r := fun u => by simp only [mergeRow, h]; rfl
    rw [h1 t, h1 now]

theorem replaceRow_of_ID (prID old new : String) (r : PullRequest) (h : r.ID = prID) :
    replaceRow prID old new r =
      { r with Reviewers := array_replace r.Reviewers old new } := by
  simp [replaceRow, h]

end db

/-! ## The store invariant -/

namespace db

theorem Get_snd (id : String) (d : DB) : (PRDB.Get id d).2 = d := by
  rw [Get_eq]

theorem lookup_snd (userID : String) (d : DB) :
    (PRDB.GetActiveTeamMemberIDsByUserID userID d).2 = d := by
  rw [lookup_eq]

theorem UpdateReviewer_error (prID old new : String) (d d1 : DB) (e : Err)
    (h : PRDB.UpdateReviewer prID old new d = (.error e, d1)) : d1 = d := by
  rw [UpdateReviewer_eq] at h
  split at h
  · simp only [Prod.mk.injEq] at h; exact h.2.symm
  · split at h
    · simp only [Prod.mk.injEq] at h; exact h.2.symm
    · split at h
      · simp only [Prod.mk.injEq] at h; exact h.2.symm
      · simp at h

theorem Add_cases (prID name authorID : String) (revs : List String) (d : DB) :
    (∃ e, PRDB.Add prID name authorID revs d = (some e, d)) ∨
    ((∀ r ∈ d.prs, r.ID ≠ prID) ∧
      PRDB.Add prID name authorID revs d =
        (none, { d with prs := d.prs ++ [⟨prID, name, authorID, "OPEN", revs, none⟩] })) := by
  unfold PRDB.Add
  by_cases h1 : prsUniqueViolation d prID = true
  · left; exact ⟨_, by rw [if_pos h1]⟩
  · rw [if_neg h1]
    by_cases h2 : prsForeignKeyViolation d authorID = true
    · left; exact ⟨_, by rw [if_pos h2]⟩
    · rw [if_neg h2]
      right
      refine ⟨?_, rfl⟩
      intro r hr hid
      apply h1
      simp only [prsUniqueViolation, List.any_eq_true, beq_iff_eq]
      exact ⟨r, hr, hid⟩

end db

/-- The store after `Reassign` on the PostgreSQL storage: untouched, or the call
succeeded. -/
theorem Reassign_state (rnd : Nat → Nat) (prID oldReviewerID : String) (d : db.DB) :
    (PRService.Reassign db.NewPRDB rnd prID oldReviewerID d).2 = d ∨
    ∃ pr1 newID d1,
      PRService.Reassign db.NewPRDB rnd prID oldReviewerID d = (.ok (pr1, newID), d1) := by
  rcases hget : db.NewPRDB.Get prID d with ⟨e | pr, s1⟩
  · have hs1 : s1 = d := by have := db.Get_snd prID d; rw [show db.PRDB.Get prID d = _ from hget] at this; exact this
    left; simp [PRService.Reassign, hget, hs1]
  · have hs1 : s1 = d := by have := db.Get_snd prID d; rw [show db.PRDB.Get prID d = _ from hget] at this; exact this
    subst hs1
    by_cases hst : pr.Status = "MERGED"
    · left; simp [PRService.Reassign, hget, hst]
    · by_cases hass : oldReviewerID ∈ pr.Reviewers
      · rcases hl : db.NewPRDB.GetActiveTeamMemberIDsByUserID oldReviewerID s1 with ⟨e | ids, s2⟩
        · have hs2 : s2 = s1 := by
            have := db.lookup_snd oldReviewerID s1
            rw [show db.PRDB.GetActiveTeamMemberIDsByUserID oldReviewerID s1 = _ from hl] at this
            exact this
          left; simp [PRService.Reassign, hget, hst, hass, hl, hs2]
        · have hs2 : s2 = s1 := by
            have := db.lookup_snd oldReviewerID s1
            rw [show db.PRDB.GetActiveTeamMemberIDsByUserID oldReviewerID s1 = _ from hl] at this
            exact this
          subst hs2
          rw [Reassign_after_lookup db.NewPRDB rnd prID oldReviewerID s2 s2 s2 pr ids hget hst hass hl]
          split
          · left; rfl
          · rename_i hpool
            obtain ⟨x, hx, _⟩ := getRandomStrings_one rnd _ hpool
            rw [hx]
            simp only
            rcases hu : db.NewPRDB.UpdateReviewer prID oldReviewerID x s2 with ⟨e | pr2, s4⟩
            · left
              exact db.UpdateReviewer_error prID oldReviewerID x s2 s4 e hu
            · right
              exact ⟨pr2, x, s4, rfl⟩
      · left; simp [PRService.Reassign, hget, hst, hass]


namespace db

theorem upsertUser_ids (users : List User) (u : User) :
    ((upsertUser users u).map User.ID = users.map User.ID ∧ u.ID ∈ users.map User.ID) ∨
    ((upsertUser users u).map User.ID = users.map User.ID ++ [u.ID] ∧
      u.ID ∉ users.map User.ID) := by
  unfold upsertUser
  by_cases h : users.any (fun r => r.ID == u.ID) = true
  · left
    rw [if_pos h]
    constructor
    · rw [List.map_map]
      apply List.map_congr_left
      intro r _
      by_cases hr : (r.ID == u.ID) = true
      · simp only [Function.comp, hr, if_true]
        exact (beq_iff_eq.mp hr).symm
      · simp only [Function.comp, hr]
        rfl
    · simp only [List.any_eq_true, beq_iff_eq] at h
      obtain ⟨r, hr, hid⟩ := h
      exact List.mem_map.mpr ⟨r, hr, hid⟩
  · right
    rw [if_neg h]
    constructor
    · simp
    · intro hm
      apply h
      obtain ⟨r, hr, hid⟩ := List.mem_map.mp hm
      simp only [List.any_eq_true, beq_iff_eq]
      exact ⟨r, hr, hid⟩

theorem upsertUser_nodup (users : List User) (u : User) (h : (users.map User.ID).Nodup) :
    ((upsertUser users u).map User.ID).Nodup := by
  rcases upsertUser_ids users u with ⟨h1, _⟩ | ⟨h1, h2⟩
  · rw [h1]; exact h
  · rw [h1]
    exact List.Nodup.append h (List.nodup_singleton _) (by simpa using h2)

theorem foldl_upsertUser_nodup (us users : List User) (h : (users.map User.ID).Nodup) :
    ((us.foldl upsertUser users).map User.ID).Nodup := by
  induction us generalizing users with
  | nil => exact h
  | cons u us ih => exact ih _ (upsertUser_nodup users u h)

theorem TeamDB_Add_cases (team : Team) (d : DB) :
    (TeamDB.Add team d).2 = d ∨
    ∃ us : List User, (TeamDB.Add team d).2 =
      { d with teams := d.teams ++ [team.Name], users := us.foldl upsertUser d.users } := by
  unfold TeamDB.Add
  split
  · left; rfl
  · split
    · simp only []
      split
      · right; exact ⟨_, rfl⟩
      · left; rfl
    · right; exact ⟨[], rfl⟩

theorem UpdateIsActive_cases (id : String) (isActive : Bool) (d : DB) :
    (UserDB.UpdateIsActive id isActive d).2 = d ∨
    ∃ f : User → User, (∀ u, (f u).ID = u.ID) ∧
      (UserDB.UpdateIsActive id isActive d).2 = { d with users := d.users.map f } := by
  unfold UserDB.UpdateIsActive
  simp only
  split
  · left; rfl
  · right
    refine ⟨_, ?_, rfl⟩
    intro u
    split <;> rfl

theorem lookup_nodup (userID : String) (d d1 : DB) (ids : List String)
    (hn : (d.users.map User.ID).Nodup)
    (h : PRDB.GetActiveTeamMemberIDsByUserID userID d = (.ok ids, d1)) : ids.Nodup := by
  obtain ⟨_, u, _, hids⟩ := lookup_ok userID d d1 ids h
  rw [hids]
  exact hn.sublist ((List.filter_sublist _).map _)

theorem array_replace_nodup (l : List String) (old new : String) (h : l.Nodup)
    (hnew : new ∉ l) : (array_replace l old new).Nodup := by
  unfold array_replace
  apply List.Nodup.map_on _ h
  intro x hx y hy hxy
  by_cases h1 : (x == old) = true <;> by_cases h2 : (y == old) = true
  · rw [beq_iff_eq] at h1 h2; rw [h1, h2]
  · simp only [h1, h2, if_true] at hxy
    exact absurd (hxy ▸ hy) hnew
  · simp only [h1, h2, if_true] at hxy
    exact absurd (hxy.symm ▸ hx) hnew
  · simpa only [h1, h2] using hxy

theorem mem_array_replace (l : List String) (old new x : String)
    (h : x ∈ array_replace l old new) : x = new ∨ x ∈ l := by
  unfold array_replace at h
  obtain ⟨y, hy, hxy⟩ := List.mem_map.mp h
  by_cases h1 : (y == old) = true
  · simp only [h1, if_true] at hxy; exact Or.inl hxy.symm
  · simp only [h1] at hxy; exact Or.inr (hxy ▸ hy)

end db


theorem TeamService_Create_snd {σ : Type} (db : TeamDB σ) (team : Team) (s : σ) :
    (TeamService.Create db team s).2 = (db.Add team s).2 := by
  unfold TeamService.Create
  split <;> simp_all

theorem UserService_SetFlag_snd {σ : Type} (db : UserDB σ) (id : String) (b : Bool) (s : σ) :
    (UserService.SetFlag db id b s).2 = (db.UpdateIsActive id b s).2 := by
  unfold UserService.SetFlag
  split <;> simp_all

theorem PRService_Merge_eq {σ : Type} (db : PRDB σ) (id : String) (s : σ) :
    PRService.Merge db id s = db.UpdateMerged id s := by
  unfold PRService.Merge
  split <;> simp_all

/-- The store after `Create` on the PostgreSQL storage: untouched, or one row more. -/
theorem Create_state (rnd : Nat → Nat) (prID name authorID : String) (d : db.DB) :
    (PRService.Create db.NewPRDB rnd prID name authorID d).2 = d ∨
    ∃ ids : List String,
      db.PRDB.GetActiveTeamMemberIDsByUserID authorID d = (.ok ids, d) ∧
      (∀ r ∈ d.prs, r.ID ≠ prID) ∧
      (PRService.Create db.NewPRDB rnd prID name authorID d).2 =
        { d with prs := d.prs ++ [⟨prID, name, authorID, "OPEN",
            getRandomStrings rnd (removeByValue ids authorID) 2, none⟩] } := by
  rcases hl : db.NewPRDB.GetActiveTeamMemberIDsByUserID authorID d with ⟨e | ids, s1⟩
  · have hs1 : s1 = d := by
      have := db.lookup_snd authorID d
      rw [show db.PRDB.GetActiveTeamMemberIDsByUserID authorID d = _ from hl] at this
      exact this
    left; simp [PRService.Create, hl, hs1]
  · have hs1 : s1 = d := by
      have := db.lookup_snd authorID d
      rw [show db.PRDB.GetActiveTeamMemberIDsByUserID authorID d = _ from hl] at this
      exact this
    subst hs1
    rcases db.Add_cases prID name authorID
      (getRandomStrings rnd (removeByValue ids authorID) 2) s1 with ⟨e, ha⟩ | ⟨hfresh, ha⟩
    · left
      have ha1 : db.NewPRDB.Add prID name authorID
        (getRandomStrings rnd (removeByValue ids authorID) 2) s1 = (some e, s1) := ha
      simp only [PRService.Create, hl, ha1]
    · right
      have ha1 : db.NewPRDB.Add prID name authorID
        (getRandomStrings rnd (removeByValue ids authorID) 2) s1 = _ := ha
      refine ⟨ids, hl, hfresh, ?_⟩
      simp only [PRService.Create, hl, ha1]

theorem Inv_empty : Inv db.empty :=
  ⟨List.nodup_nil, List.nodup_nil, fun _ h => by simp [db.empty] at h,
    fun _ h => by simp [db.empty] at h⟩

theorem Inv_of_prs_eq (d d1 : db.DB) (h : Inv d) (hprs : d1.prs = d.prs)
    (hu : (d1.users.map db.User.ID).Nodup) : Inv d1 :=
  ⟨hu, hprs ▸ h.prs_nodup, hprs ▸ h.reviewers_ok, hprs ▸ h.merged_at⟩

theorem Inv_teamAdd (d : db.DB) (team : Team) (h : Inv d) : Inv (step d (.teamAdd team)) := by
  have hs : step d (.teamAdd team) = (db.TeamDB.Add team d).2 :=
    TeamService_Create_snd db.NewTeamDB team d
  rw [hs]
  rcases db.TeamDB_Add_cases team d with h1 | ⟨us, h1⟩
  · rw [h1]; exact h
  · rw [h1]
    exact Inv_of_prs_eq d _ h rfl (db.foldl_upsertUser_nodup us d.users h.users_nodup)

theorem Inv_setIsActive (d : db.DB) (id : String) (b : Bool) (h : Inv d) :
    Inv (step d (.setIsActive id b)) := by
  have hs : step d (.setIsActive id b) = (db.UserDB.UpdateIsActive id b d).2 :=
    UserService_SetFlag_snd db.NewUserDB id b d
  rw [hs]
  rcases db.UpdateIsActive_cases id b d with h1 | ⟨f, hf, h1⟩
  · rw [h1]; exact h
  · rw [h1]
    refine Inv_of_prs_eq d _ h rfl ?_
    have : (d.users.map f).map db.User.ID = d.users.map db.User.ID := by
      rw [List.map_map]
      exact List.map_congr_left (fun u _ => hf u)
    simp only [this]
    exact h.users_nodup

theorem Inv_create (d : db.DB) (rnd : Nat → Nat) (prID name authorID : String) (h : Inv d) :
    Inv (step d (.create rnd prID name authorID)) := by
  have hs : step d (.create rnd prID name authorID) =
      (PRService.Create db.NewPRDB rnd prID name authorID d).2 := rfl
  rw [hs]
  rcases Create_state rnd prID name authorID d with h1 | ⟨ids, hl, hfresh, h1⟩
  · rw [h1]; exact h
  · rw [h1]
    have hids := db.lookup_nodup authorID d d ids h.users_nodup hl
    refine ⟨h.users_nodup, ?_, ?_, ?_⟩
    · simp only [List.map_append, List.map_cons, List.map_nil]
      refine List.Nodup.append h.prs_nodup (List.nodup_singleton _) ?_
      intro x hx hx1
      obtain ⟨r, hr, hid⟩ := List.mem_map.mp hx
      rw [List.mem_singleton] at hx1
      exact hfresh r hr (hid.trans hx1)
    · intro r hr
      simp only [List.mem_append, List.mem_singleton] at hr
      rcases hr with hr | hr
      · exact h.reviewers_ok r hr
      · subst hr
        refine ⟨getRandomStrings_nodup _ _ _ (removeByValue_nodup _ _ hids), ?_, ?_⟩
        · intro hm
          exact ((mem_removeByValue _ _ _).mp (getRandomStrings_mem _ _ _ _ hm)).2 rfl
        · show (getRandomStrings rnd (removeByValue ids authorID) 2).length ≤ 2
          rw [getRandomStrings_length]
          exact Nat.min_le_left _ _
    · intro r hr
      simp only [List.mem_append, List.mem_singleton] at hr
      rcases hr with hr | hr
      · exact h.merged_at r hr
      · subst hr
        intro hst
        have hst1 : "OPEN" = "MERGED" := hst
        exact absurd hst1 (by decide)

theorem Inv_merge (d : db.DB) (id : String) (h : Inv d) : Inv (step d (.merge id)) := by
  have hs : step d (.merge id) = (db.PRDB.UpdateMerged id d).2 :=
    congrArg Prod.snd (PRService_Merge_eq db.NewPRDB id d)
  rw [hs, db.UpdateMerged_eq]
  split
  · exact h
  · refine ⟨h.users_nodup, ?_, ?_, ?_⟩
    · have : (d.prs.map (db.mergeRow id d.clock)).map db.PullRequest.ID =
          d.prs.map db.PullRequest.ID := by
        rw [List.map_map]
        exact List.map_congr_left (fun r _ => db.mergeRow_ID id d.clock r)
      simp only [this]
      exact h.prs_nodup
    · intro r hr
      obtain ⟨r0, hr0, rfl⟩ := List.mem_map.mp hr
      have := h.reviewers_ok r0 hr0
      unfold db.mergeRow
      split <;> exact this
    · intro r hr
      obtain ⟨r0, hr0, rfl⟩ := List.mem_map.mp hr
      unfold db.mergeRow
      split
      · intro _
        simp only [db.COALESCE]
        split <;> simp
      · exact h.merged_at r0 hr0


/-- The store after a `reassign` request: untouched, or the reviewer lists of the rows
with that id rewritten, with a replacement that is neither a reviewer nor the author. -/
theorem step_reassign (d : db.DB) (rnd : Nat → Nat) (prID oldReviewerID : String) :
    step d (.reassign rnd prID oldReviewerID) = d ∨
    ∃ (cur : db.PullRequest) (newID : String),
      d.prs.find? (fun r => r.ID == prID) = some cur ∧ cur.Status ≠ "MERGED" ∧
      oldReviewerID ∈ cur.Reviewers ∧ newID ∉ cur.Reviewers ∧ newID ≠ cur.AuthorID ∧
      step d (.reassign rnd prID oldReviewerID) =
        { d with prs := d.prs.map (db.replaceRow prID oldReviewerID newID) } := by
  have hs : step d (.reassign rnd prID oldReviewerID) =
      (PRService.Reassign db.NewPRDB rnd prID oldReviewerID d).2 := rfl
  rw [hs]
  rcases Reassign_state rnd prID oldReviewerID d with h1 | ⟨pr1, newID, d1, hok⟩
  · left; exact h1
  · right
    obtain ⟨pr, s1, ids, s2, hget, _, _, hl, hmem, hupd⟩ :=
      Reassign_ok_inv db.NewPRDB rnd prID oldReviewerID d d1 pr1 newID hok
    rw [mem_removeByValue, mem_foldl_removeByValue] at hmem
    obtain ⟨hs1, r, hfind, hpr⟩ := db.Get_ok prID d s1 pr hget
    rw [hs1] at hl
    obtain ⟨hs2, _⟩ := db.lookup_ok oldReviewerID d s2 ids hl
    rw [hs2] at hupd
    obtain ⟨cur, hfind1, hst, hass, _, hd1⟩ :=
      db.UpdateReviewer_ok prID oldReviewerID newID d d1 pr1 hupd
    rw [hfind] at hfind1
    cases hfind1
    rw [hpr] at hmem
    refine ⟨r, newID, hfind, hst, hass, hmem.1.2, hmem.2, ?_⟩
    rw [hok, hd1]

theorem unique_by_ID (l : List db.PullRequest) (h : (l.map db.PullRequest.ID).Nodup)
    (r r1 : db.PullRequest) (hr : r ∈ l) (hr1 : r1 ∈ l) (hid : r.ID = r1.ID) : r = r1 :=
  List.inj_on_of_nodup_map h hr hr1 hid

theorem Inv_reassign (d : db.DB) (rnd : Nat → Nat) (prID oldReviewerID : String) (h : Inv d) :
    Inv (step d (.reassign rnd prID oldReviewerID)) := by
  rcases step_reassign d rnd prID oldReviewerID with h1 | ⟨cur, newID, hfind, _, _, hnr, hna, h1⟩
  · rw [h1]; exact h
  · rw [h1]
    have hcur : cur ∈ d.prs := List.mem_of_find?_eq_some hfind
    have hcid : cur.ID = prID := db.find?_ID _ _ _ hfind
    refine ⟨h.users_nodup, ?_, ?_, ?_⟩
    · have : (d.prs.map (db.replaceRow prID oldReviewerID newID)).map db.PullRequest.ID =
          d.prs.map db.PullRequest.ID := by
        rw [List.map_map]
        exact List.map_congr_left (fun r _ => db.replaceRow_ID prID oldReviewerID newID r)
      simp only [this]
      exact h.prs_nodup
    · intro r hr
      obtain ⟨r0, hr0, rfl⟩ := List.mem_map.mp hr
      have hok := h.reviewers_ok r0 hr0
      by_cases hid : r0.ID = prID
      · have hr0c : r0 = cur := unique_by_ID d.prs h.prs_nodup r0 cur hr0 hcur (hid.trans hcid.symm)
        subst hr0c
        rw [db.replaceRow_of_ID _ _ _ _ hid]
        refine ⟨db.array_replace_nodup _ _ _ hok.1 hnr, ?_, ?_⟩
        · intro hm
          rcases db.mem_array_replace _ _ _ _ hm with h2 | h2
          · exact hna h2.symm
          · exact hok.2.1 h2
        · show (db.array_replace r0.Reviewers oldReviewerID newID).length ≤ 2
          unfold db.array_replace
          rw [List.length_map]
          exact hok.2.2
      · have : db.replaceRow prID oldReviewerID newID r0 = r0 := by
          simp [db.replaceRow, hid]
        rw [this]; exact hok
    · intro r hr
      obtain ⟨r0, hr0, rfl⟩ := List.mem_map.mp hr
      have hok := h.merged_at r0 hr0
      unfold db.replaceRow
      split <;> exact hok

theorem Inv_step (d : db.DB) (op : Op) (h : Inv d) : Inv (step d op) := by
  cases op with
  | teamAdd team => exact Inv_teamAdd d team h
  | setIsActive id b => exact Inv_setIsActive d id b h
  | create rnd prID name authorID => exact Inv_create d rnd prID name authorID h
  | merge id => exact Inv_merge d id h
  | reassign rnd prID old => exact Inv_reassign d rnd prID old h
  | tick now => exact ⟨h.users_nodup, h.prs_nodup, h.reviewers_ok, h.merged_at⟩

theorem Inv_run (ops : List Op) (d : db.DB) (h : Inv d) : Inv (run d ops) := by
  induction ops generalizing d with
  | nil => exact h
  | cons op ops ih => exact ih _ (Inv_step d op h)

theorem mergeRow_of_merged (id : String) (now : Nat) (r : db.PullRequest)
    (hm : r.Status = "MERGED") (hat : r.MergedAt ≠ none) : db.mergeRow id now r = r := by
  unfold db.mergeRow
  split
  · obtain ⟨t, ht⟩ := Option.ne_none_iff_exists'.mp hat
    cases r
    simp only at hm ht
    subst hm ht
    rfl
  · rfl

/-- A merged PR is found unchanged after any one request. -/
theorem step_find_merged (d : db.DB) (op : Op) (id : String) (r : db.PullRequest) (h : Inv d)
    (hfind : d.prs.find? (fun x => x.ID == id) = some r) (hm : r.Status = "MERGED") :
    (step d op).prs.find? (fun x => x.ID == id) = some r := by
  cases op with
  | teamAdd team =>
    have hs : step d (.teamAdd team) = (db.TeamDB.Add team d).2 :=
      TeamService_Create_snd db.NewTeamDB team d
    rw [hs]
    rcases db.TeamDB_Add_cases team d with h1 | ⟨us, h1⟩ <;> rw [h1] <;> exact hfind
  | setIsActive uid b =>
    have hs : step d (.setIsActive uid b) = (db.UserDB.UpdateIsActive uid b d).2 :=
      UserService_SetFlag_snd db.NewUserDB uid b d
    rw [hs]
    rcases db.UpdateIsActive_cases uid b d with h1 | ⟨f, _, h1⟩ <;> rw [h1] <;> exact hfind
  | create rnd prID name authorID =>
    have hs : step d (.create rnd prID name authorID) =
        (PRService.Create db.NewPRDB rnd prID name authorID d).2 := rfl
    rw [hs]
    rcases Create_state rnd prID name authorID d with h1 | ⟨ids, _, _, h1⟩
    · rw [h1]; exact hfind
    · rw [h1]
      simp only [List.find?_append, hfind]
      rfl
  | merge mid =>
    have hs : step d (.merge mid) = (db.PRDB.UpdateMerged mid d).2 :=
      congrArg Prod.snd (PRService_Merge_eq db.NewPRDB mid d)
    rw [hs, db.UpdateMerged_eq]
    split
    · exact hfind
    · simp only
      rw [db.find?_map_key _ _ _ (db.mergeRow_ID mid d.clock), hfind, Option.map_some',
        mergeRow_of_merged mid d.clock r hm
          (h.merged_at r (List.mem_of_find?_eq_some hfind) hm)]
  | reassign rnd prID old =>
    rcases step_reassign d rnd prID old with h1 | ⟨cur, newID, hfc, hst, _, _, _, h1⟩
    · rw [h1]; exact hfind
    · rw [h1]
      simp only
      rw [db.find?_map_key _ _ _ (db.replaceRow_ID prID old newID), hfind, Option.map_some']
      have hne : r.ID ≠ prID := by
        intro hid
        have hrid : r.ID = id := db.find?_ID _ _ _ hfind
        have : id = prID := hrid.symm.trans hid
        subst this
        rw [hfind] at hfc
        cases hfc
        exact hst hm
      have : db.replaceRow prID old newID r = r := by simp [db.replaceRow, hne]
      rw [this]
  | tick now => exact hfind

theorem run_find_merged (ops : List Op) (d : db.DB) (id : String) (r : db.PullRequest)
    (h : Inv d) (hfind : d.prs.find? (fun x => x.ID == id) = some r)
    (hm : r.Status = "MERGED") :
    (run d ops).prs.find? (fun x => x.ID == id) = some r := by
  induction ops generalizing d with
  | nil => exact hfind
  | cons op ops ih => exact ih _ (Inv_step d op h) (step_find_merged d op id r h hfind hm)

theorem Shuffle_short (rnd : Nat → Nat) (src : List String) (h : src.length ≤ 1) :
    Shuffle rnd src = src := by
  unfold Shuffle
  have : src.length - 1 = 0 := by omega
  rw [this]
  rfl

theorem foldl_removeByValue_eq_filter (revs src : List String) :
    revs.foldl removeByValue src = src.filter (fun id => !revs.contains id) := by
  induction revs generalizing src with
  | nil => simp
  | cons r revs ih =>
    rw [List.foldl_cons, ih, removeByValue_eq_filter, List.filter_filter]
    congr 1
    funext id
    simp only [List.contains_cons, Bool.not_or, bne, Bool.and_comm]

/-- The pool of `Reassign`: the teammates that are neither reviewers nor the author. -/
theorem pool_eq_filter (revs ids : List String) (author : String) :
    removeByValue (revs.foldl removeByValue ids) author =
      ids.filter (fun id => !revs.contains id && id != author) := by
  rw [foldl_removeByValue_eq_filter, removeByValue_eq_filter, List.filter_filter]
  congr 1
  funext id
  rw [Bool.and_comm]

theorem getRandomStrings_singleton (rnd : Nat → Nat) (c : String) :
    getRandomStrings rnd [c] 1 = [c] := rfl

namespace db

theorem lookup_activeMember (userID : String) (d d1 : DB) (ids : List String)
    (h : PRDB.GetActiveTeamMemberIDsByUserID userID d = (.ok ids, d1)) :
    ∃ t, teamOf d userID = some t ∧ ∀ r ∈ ids, activeMember d t r = true := by
  obtain ⟨_, u, hu, hids⟩ := lookup_ok userID d d1 ids h
  refine ⟨u.TeamName, by simp [teamOf, hu], ?_⟩
  intro r hr
  rw [hids] at hr
  obtain ⟨row, hrow, hid⟩ := List.mem_map.mp hr
  rw [List.mem_filter] at hrow
  simp only [activeMember, List.any_eq_true]
  refine ⟨row, hrow.1, ?_⟩
  have h2 := hrow.2
  simp only [Bool.and_eq_true, beq_iff_eq] at h2 ⊢
  exact ⟨⟨hid, h2.1⟩, h2.2⟩

end db

/-- What a successful `Create` went through. -/
theorem Create_ok_inv {σ : Type} (db : PRDB σ) (rnd : Nat → Nat)
    (prID name authorID : String) (s s2 : σ) (pr : PullRequest)
    (h : PRService.Create db rnd prID name authorID s = (.ok pr, s2)) :
    ∃ (ids : List String) (s1 : σ),
      db.GetActiveTeamMemberIDsByUserID authorID s = (.ok ids, s1) ∧
      db.Add prID name authorID (getRandomStrings rnd (removeByValue ids authorID) 2) s1 =
        (none, s2) ∧
      pr = ⟨⟨prID, name, authorID, "OPEN"⟩,
        getRandomStrings rnd (removeByValue ids authorID) 2, none⟩ := by
  unfold PRService.Create at h
  rcases hl : db.GetActiveTeamMemberIDsByUserID authorID s with ⟨_ | ids, s1⟩
  · simp [hl] at h
  · simp only [hl] at h
    rcases ha : db.Add prID name authorID
      (getRandomStrings rnd (removeByValue ids authorID) 2) s1 with ⟨_ | e, s3⟩
    · simp only [ha, Prod.mk.injEq, Except.ok.injEq] at h
      exact ⟨ids, s1, rfl, by rw [ha, h.2], h.1.symm⟩
    · simp [ha] at h

namespace db

theorem find?_replace_other (users : List User) (u : User) (uid : String) (h : uid ≠ u.ID) :
    (users.map (fun r => if r.ID == u.ID then u else r)).find? (fun x => x.ID == uid) =
      users.find? (fun x => x.ID == uid) := by
  have h2 : (u.ID == uid) = false := by simpa using fun e => h (Eq.symm e)
  induction users with
  | nil => rfl
  | cons a t ih =>
    simp only [List.map_cons, List.find?_cons]
    by_cases ha : a.ID = u.ID
    · have h1 : (a.ID == u.ID) = true := by simpa using ha
      have h3 : (a.ID == uid) = false := by rw [ha]; exact h2
      simp only [h1, if_true, h2, h3]
      exact ih
    · have h1 : (a.ID == u.ID) = false := by simpa using ha
      simp only [h1, Bool.false_eq_true, if_false]
      cases (a.ID == uid)
      · exact ih
      · rfl

theorem find?_upsertUser_other (users : List User) (u : User) (uid : String)
    (h : uid ≠ u.ID) :
    (upsertUser users u).find? (fun x => x.ID == uid) = users.find? (fun x => x.ID == uid) := by
  have h2 : (u.ID == uid) = false := by simpa using fun e => h (Eq.symm e)
  unfold upsertUser
  split
  · exact find?_replace_other users u uid h
  · rw [List.find?_append]
    have : List.find? (fun x => x.ID == uid) [u] = none := by
      simp only [List.find?_cons, h2, List.find?_nil]
    rw [this]
    simp

theorem find?_upsertUser_self (users : List User) (u : User) :
    (upsertUser users u).find? (fun x => x.ID == u.ID) = some u := by
  unfold upsertUser
  split
  · rename_i hany
    induction users with
    | nil => simp at hany
    | cons a t ih =>
      simp only [List.map_cons, List.find?_cons]
      by_cases ha : a.ID = u.ID
      · have h1 : (a.ID == u.ID) = true := by simpa using ha
        simp only [h1, if_true, beq_self_eq_true]
      · have h1 : (a.ID == u.ID) = false := by simpa using ha
        simp only [h1, Bool.false_eq_true, if_false]
        apply ih
        simpa [List.any_cons, h1] using hany
  · rename_i hany
    rw [List.find?_append]
    have hn : users.find? (fun x => x.ID == u.ID) = none := by
      rw [List.find?_eq_none]
      intro x hx hxe
      exact hany (List.any_eq_true.mpr ⟨x, hx, hxe⟩)
    rw [hn]
    simp

theorem find?_foldl_upsertUser_other (us users : List User) (uid : String)
    (h : uid ∉ us.map User.ID) :
    (us.foldl upsertUser users).find? (fun x => x.ID == uid) =
      users.find? (fun x => x.ID == uid) := by
  induction us generalizing users with
  | nil => rfl
  | cons a t ih =>
    simp only [List.map_cons, List.mem_cons, not_or] at h
    rw [List.foldl_cons, ih _ h.2, find?_upsertUser_other users a uid h.1]

theorem find?_foldl_upsertUser_self (us users : List User) (m : User)
    (hnd : (us.map User.ID).Nodup) (hm : m ∈ us) :
    (us.foldl upsertUser users).find? (fun x => x.ID == m.ID) = some m := by
  induction us generalizing users with
  | nil => simp at hm
  | cons a t ih =>
    simp only [List.map_cons, List.nodup_cons] at hnd
    rw [List.foldl_cons]
    rcases List.mem_cons.mp hm with hma | hmt
    · subst hma
      rw [find?_foldl_upsertUser_other t _ m.ID hnd.1, find?_upsertUser_self]
    · exact ih _ hnd.2 hmt

theorem find?_map_user_key (l : List User) (f : User → User) (id : String)
    (hf : ∀ r, (f r).ID = r.ID) :
    (l.map f).find? (fun r => r.ID == id) = (l.find? (fun r => r.ID == id)).map f := by
  rw [List.find?_map]
  have : ((fun r : User => r.ID == id) ∘ f) = (fun r => r.ID == id) := by
    funext r
    simp [hf]
  rw [this]

theorem find?_user_ID (l : List User) (id : String) (u : User)
    (h : l.find? (fun r => r.ID == id) = some u) : u.ID = id := by
  have := List.find?_some h
  simpa using this

theorem UpdateIsActive_find (id uid : String) (b : Bool) (d : DB) (u : User)
    (hu : d.users.find? (fun x => x.ID == uid) = some u) :
    (UserDB.UpdateIsActive id b d).2.users.find? (fun x => x.ID == uid) =
      some (if uid = id then { u with IsActive := b } else u) := by
  have huid : u.ID = uid := find?_user_ID _ _ _ hu
  have hmap : ∀ k : String,
      (d.users.map (fun x => if x.ID == id then { x with IsActive := b } else x)).find?
        (fun x => x.ID == k) =
      (d.users.find? (fun x => x.ID == k)).map
        (fun x => if x.ID == id then { x with IsActive := b } else x) := by
    intro k
    apply find?_map_user_key
    intro r
    split <;> rfl
  unfold UserDB.UpdateIsActive
  simp only
  split
  · rename_i hnone
    rw [hmap id] at hnone
    have hne : uid ≠ id := by
      intro e
      rw [← e, hu] at hnone
      simp at hnone
    simp only [hu, hne, if_false]
  · simp only
    rw [hmap uid, hu, Option.map_some']
    by_cases e : uid = id
    · have : (u.ID == id) = true := by rw [huid, e]; simp
      simp only [this, if_true, e]
    · have : (u.ID == id) = false := by rw [huid]; simpa using e
      simp only [this, e, if_false, Bool.false_eq_true]

theorem TeamDB_Add_find_other (team : Team) (d : DB) (uid : String)
    (h : uid ∉ team.Members.map TeamMember.ID) :
    (TeamDB.Add team d).2.users.find? (fun x => x.ID == uid) =
      d.users.find? (fun x => x.ID == uid) := by
  unfold TeamDB.Add
  split
  · rfl
  · split
    · simp only []
      split
      · simp only
        apply find?_foldl_upsertUser_other
        simpa [List.map_map, Function.comp] using h
      · rfl
    · rfl

theorem TeamDB_Add_find_member (team : Team) (d : DB) (m : TeamMember)
    (hm : m ∈ team.Members) (hok : (TeamDB.Add team d).1 = none) :
    (TeamDB.Add team d).2.users.find? (fun x => x.ID == m.ID) =
      some ⟨m.ID, m.Name, team.Name, m.IsActive⟩ := by
  unfold TeamDB.Add at hok ⊢
  split at hok
  · simp at hok
  · rename_i hteam
    rw [if_neg hteam]
    have hlen : team.Members.length > 0 := List.length_pos_of_mem hm
    rw [if_pos hlen] at hok ⊢
    simp only [] at hok ⊢
    split at hok
    · rename_i hnd
      rw [if_pos hnd]
      simp only
      exact find?_foldl_upsertUser_self _ d.users ⟨m.ID, m.Name, team.Name, m.IsActive⟩ hnd
        (List.mem_map.mpr ⟨m, hm, rfl⟩)
    · simp at hok

end db

theorem step_create_users (d : db.DB) (rnd : Nat → Nat) (prID name authorID : String) :
    (step d (.create rnd prID name authorID)).users = d.users := by
  have hs : step d (.create rnd prID name authorID) =
      (PRService.Create db.NewPRDB rnd prID name authorID d).2 := rfl
  rw [hs]
  rcases Create_state rnd prID name authorID d with h1 | ⟨ids, _, _, h1⟩ <;> rw [h1]

theorem step_merge_users (d : db.DB) (id : String) : (step d (.merge id)).users = d.users := by
  have hs : step d (.merge id) = (db.PRDB.UpdateMerged id d).2 :=
    congrArg Prod.snd (PRService_Merge_eq db.NewPRDB id d)
  rw [hs, db.UpdateMerged_eq]
  split <;> rfl

theorem step_reassign_users (d : db.DB) (rnd : Nat → Nat) (prID oldReviewerID : String) :
    (step d (.reassign rnd prID oldReviewerID)).users = d.users := by
  rcases step_reassign d rnd prID oldReviewerID with h1 | ⟨_, _, _, _, _, _, _, h1⟩ <;> rw [h1]

theorem recorded_Add {σ : Type} (db : PRDB σ) (a b c : String) (revs : List String) (s : σ)
    (log : List Call) :
    db.recorded.Add a b c revs (s, log) =
      ((db.Add a b c revs s).1, ((db.Add a b c revs s).2, log ++ [Call.Add a b c revs])) :=
  rfl

theorem recorded_UpdateMerged {σ : Type} (db : PRDB σ) (id : String) (s : σ) (log : List Call) :
    db.recorded.UpdateMerged id (s, log) =
      ((db.UpdateMerged id s).1, ((db.UpdateMerged id s).2, log ++ [Call.UpdateMerged id])) :=
  rfl

theorem recorded_GetByReviewer {σ : Type} (db : PRDB σ) (id : String) (s : σ)
    (log : List Call) :
    db.recorded.GetByReviewer id (s, log) =
      ((db.GetByReviewer id s).1,
        ((db.GetByReviewer id s).2, log ++ [Call.GetByReviewer id])) :=
  rfl

namespace db

/-- The method `UpdateReviewer` is its `SELECT` with the checks, then its `UPDATE`. -/
theorem UpdateReviewer_two_statements (prID old new : String) (d : DB) :
    PRDB.UpdateReviewer prID old new d =
      match PRDB.UpdateReviewerSelect prID old d with
      | some err => (.error err, d)
      | none => PRDB.UpdateReviewerUpdate prID old new d := by
  unfold PRDB.UpdateReviewer PRDB.UpdateReviewerSelect PRDB.UpdateReviewerUpdate
  cases d.prs.find? (fun r => r.ID == prID) with
  | none => rfl
  | some current =>
    simp only
    split
    · rfl
    · split <;> rfl

end db

/-- With no request served in between, the interleaved run is the method itself. -/
theorem UpdateReviewerInterleaved_nil (prID old new : String) (d : db.DB) :
    UpdateReviewerInterleaved prID old new [] d = db.PRDB.UpdateReviewer prID old new d := by
  rw [db.UpdateReviewer_two_statements]
  rfl

/-- What the add-team handler writes when `Create` reports an error: one JSON error
for `ErrAlreadyExists`; for any other error the 500 answer followed by the 201
header and the team body. -/
theorem AddTeamHandler_after_error {σ : Type} (t : TeamPort σ) (team : rest.Team) (s s1 : σ)
    (e : Err)
    (hcreate : t.Create ⟨team.Name, team.Members.map (fun m => ⟨m.ID, m.Name, m.IsActive⟩)⟩ s =
      (some e, s1)) :
    (e = Err.ErrAlreadyExists →
      rest.NewAddTeamHandler t (some team) s =
        ([rest.Write.WriteHeader 400,
          rest.Write.JSONError ⟨⟨"TEAM_EXISTS", "Team already exists"⟩⟩], s1)) ∧
    (e ≠ Err.ErrAlreadyExists →
      rest.NewAddTeamHandler t (some team) s =
        ([rest.Write.WriteHeader 500, rest.Write.Text "Internal error",
          rest.Write.WriteHeader 201, rest.Write.JSONTeam ⟨team⟩], s1)) := by
  constructor
  · intro he
    subst he
    simp [rest.NewAddTeamHandler, hcreate, rest.writeJSONError, rest.StatusBadRequest,
      rest.codeTeamExists]
  · intro he
    simp [rest.NewAddTeamHandler, hcreate, he, rest.httpError, rest.StatusInternalServerError,
      rest.StatusCreated]

theorem removeByValueMem_length (src : List String) (val : String) :
    (removeByValueMem src val).1.length = src.length :=
  (removeByValue_loop src val src.length (Nat.le_refl _)).2.2.2

/-- The draw of one id in `Reassign` is in range. -/
theorem getRandomStrings_one_length (rnd : Nat → Nat) (pool : List String)
    (h : ¬ pool.length < 1) : (getRandomStrings rnd pool 1).length = 1 := by
  rw [getRandomStrings_length]
  omega

namespace db

theorem Get_error (id : String) (d d1 : DB) (e : Err)
    (h : PRDB.Get id d = (.error e, d1)) : e = .ErrNotFound := by
  rw [Get_eq] at h
  cases hf : d.prs.find? (fun r => r.ID == id) with
  | none =>
    simp only [hf, Prod.mk.injEq, Except.error.injEq] at h
    exact h.1.symm
  | some r => simp [hf] at h

theorem lookup_error (userID : String) (d d1 : DB) (e : Err)
    (h : PRDB.GetActiveTeamMemberIDsByUserID userID d = (.error e, d1)) : e = .ErrNotFound := by
  rw [lookup_eq] at h
  cases hf : d.users.find? (fun u => u.ID == userID) with
  | none =>
    simp only [hf, Prod.mk.injEq, Except.error.injEq] at h
    exact h.1.symm
  | some r => simp [hf] at h

theorem UpdateReviewer_error_kind (prID old new : String) (d d1 : DB) (e : Err)
    (h : PRDB.UpdateReviewer prID old new d = (.error e, d1)) :
    e = .ErrNotFound ∨ e = .ErrAlredyMerged ∨ e = .ErrNotAssigned := by
  rw [UpdateReviewer_eq] at h
  split at h
  · simp only [Prod.mk.injEq, Except.error.injEq] at h
    exact Or.inl h.1.symm
  · split at h
    · simp only [Prod.mk.injEq, Except.error.injEq] at h
      exact Or.inr (Or.inl h.1.symm)
    · split at h
      · simp only [Prod.mk.injEq, Except.error.injEq] at h
        exact Or.inr (Or.inr h.1.symm)
      · simp at h

end db

/-- On the PostgreSQL storage `Reassign` never stops in the index panic. -/
theorem Reassign_no_panic (rnd : Nat → Nat) (prID oldReviewerID : String) (d : db.DB)
    (msg : String) :
    (PRService.Reassign db.NewPRDB rnd prID oldReviewerID d).1 ≠ .error (.panic msg) := by
  rcases hget : db.NewPRDB.Get prID d with ⟨e | pr, s1⟩
  · have he := db.Get_error prID d s1 e hget
    subst he
    simp [PRService.Reassign, hget]
  · by_cases hst : pr.Status = "MERGED"
    · simp [PRService.Reassign, hget, hst]
    · by_cases hass : oldReviewerID ∈ pr.Reviewers
      · rcases hl : db.NewPRDB.GetActiveTeamMemberIDsByUserID oldReviewerID s1 with ⟨e | ids, s2⟩
        · have he := db.lookup_error oldReviewerID s1 s2 e hl
          subst he
          simp [PRService.Reassign, hget, hst, hass, hl]
        · rw [Reassign_after_lookup db.NewPRDB rnd prID oldReviewerID d s1 s2 pr ids
            hget hst hass hl]
          split
          · simp
          · rename_i hpool
            obtain ⟨x, hx, _⟩ := getRandomStrings_one rnd _ hpool
            rw [hx]
            simp only
            rcases hu : db.NewPRDB.UpdateReviewer prID oldReviewerID x s2 with ⟨e | pr2, s4⟩
            · rcases db.UpdateReviewer_error_kind prID oldReviewerID x s2 s4 e hu with h | h | h <;>
                subst h <;> simp
            · simp
      · simp [PRService.Reassign, hget, hst, hass]

/-- What the merge handler writes after a successful `Merge`: id, name, author,
status and reviewers of the merged PR, and no `mergedAt`. -/
theorem MergeHandler_response {σ : Type} (pr : PRPort σ) (id : String) (s s1 : σ)
    (pullReq : PullRequest) (hmerge : pr.Merge id s = (.ok pullReq, s1)) :
    rest.NewMergePRHandler pr (some ⟨id⟩) s =
      ([rest.Write.JSONPullRequest ⟨⟨pullReq.ID, pullReq.Name, pullReq.AuthorID,
        pullReq.Status, pullReq.Reviewers, none⟩⟩], s1) := by
  simp only [rest.NewMergePRHandler, hmerge]

/-- The pools that `Create` and `Reassign` hand to `getRandomStrings` hold no id
twice: they are taken from a teammate lookup, whose ids come from the key
column of `users`, in a state reached from the empty store. -/
theorem service_pool_nodup (ops : List Op) (userID : String) (ids : List String) (d1 : db.DB)
    (revs : List String) (author : String)
    (hlookup : db.PRDB.GetActiveTeamMemberIDsByUserID userID (run db.empty ops) =
      (.ok ids, d1)) :
    (removeByValue (revs.foldl removeByValue ids) author).Nodup :=
  removeByValue_nodup _ _ (foldl_removeByValue_nodup revs ids
    (db.lookup_nodup userID (run db.empty ops) d1 ids
      (Inv_run ops db.empty Inv_empty).users_nodup hlookup))

namespace db

/-- A team add that fails is rolled back: the store is left as it was. -/
theorem TeamDB_Add_failed (team : Team) (d : DB) (h : (TeamDB.Add team d).1 ≠ none) :
    (TeamDB.Add team d).2 = d := by
  unfold TeamDB.Add at h ⊢
  split
  · rfl
  · rename_i hteam
    rw [if_neg hteam] at h
    split
    · rename_i hlen
      rw [if_pos hlen] at h
      simp only [] at h ⊢
      split
      · rename_i hnd
        rw [if_pos hnd] at h
        exact absurd rfl h
      · rfl
    · rename_i hlen
      rw [if_neg hlen] at h
      exact absurd rfl h

end db

/-! ## The claims -/

/-- C1: when the lookup of the author's active teammates returns `ids` and the
insert of the chosen reviewers succeeds, `Create` returns a PR whose reviewer
list has exactly `min 2 k` entries, `k` being the number of `ids` that differ from
the author: 2 when `k ≥ 2`, 1 when `k = 1`, 0 (and no error) when `k = 0`, for every
outcome `rnd` of the shuffle. -/
theorem Create_reviewers_count {σ : Type} (db : PRDB σ) (rnd : Nat → Nat)
    (prID name authorID : String) (s s1 s2 : σ) (ids : List String)
    (hlookup : db.GetActiveTeamMemberIDsByUserID authorID s = (.ok ids, s1))
    (hadd : db.Add prID name authorID
      (getRandomStrings rnd (removeByValue ids authorID) 2) s1 = (none, s2)) :
    ∃ pr : PullRequest,
      PRService.Create db rnd prID name authorID s = (.ok pr, s2) ∧
      pr.Reviewers.length = min 2 (ids.countP (fun id => id != authorID)) ∧
      (2 ≤ ids.countP (fun id => id != authorID) → pr.Reviewers.length = 2) ∧
      (ids.countP (fun id => id != authorID) = 1 → pr.Reviewers.length = 1) ∧
      (ids.countP (fun id => id != authorID) = 0 → pr.Reviewers.length = 0) := by
  have hc : PRService.Create db rnd prID name authorID s =
      (.ok { ID := prID, Name := name, AuthorID := authorID, Status := "OPEN",
             Reviewers := getRandomStrings rnd (removeByValue ids authorID) 2,
             MergedAt := none }, s2) := by
    simp only [PRService.Create, hlookup, hadd]
  have hlen : (getRandomStrings rnd (removeByValue ids authorID) 2).length =
      min 2 (ids.countP (fun id => id != authorID)) := by
    rw [getRandomStrings_length, removeByValue_length]
  refine ⟨_, hc, hlen, ?_, ?_, ?_⟩ <;> intro h <;>
    show (getRandomStrings rnd (removeByValue ids authorID) 2).length = _ <;> omega

theorem Create_reviewers_count_witness :
    db.NewPRDB.GetActiveTeamMemberIDsByUserID "A" exTeamDB =
        (.ok ["A", "R1", "R2", "R3"], exTeamDB) ∧
      ∃ pr : PullRequest,
        PRService.Create db.NewPRDB exRnd "pr1" "x" "A" exTeamDB = (.ok pr, exOpenDB) ∧
        pr.Reviewers.length = 2 :=
  ⟨by rfl,
    match Create_reviewers_count db.NewPRDB exRnd "pr1" "x" "A" exTeamDB exTeamDB exOpenDB
        ["A", "R1", "R2", "R3"] (by rfl) (by rfl) with
    | ⟨pr, h, _, h2, _⟩ => ⟨pr, h, h2 (by decide)⟩⟩

/-- C2: every id in the reviewer list returned by a successful `Create` is one of
the ids returned by the lookup of the author's active teammates, and none is the
author, for every outcome `rnd` of the shuffle. -/
theorem Create_reviewers_from_lookup {σ : Type} (db : PRDB σ) (rnd : Nat → Nat)
    (prID name authorID : String) (s s2 : σ) (pr : PullRequest)
    (hcreate : PRService.Create db rnd prID name authorID s = (.ok pr, s2)) :
    ∃ (ids : List String) (s1 : σ),
      db.GetActiveTeamMemberIDsByUserID authorID s = (.ok ids, s1) ∧
      ∀ r ∈ pr.Reviewers, r ∈ ids ∧ r ≠ authorID := by
  unfold PRService.Create at hcreate
  rcases hl : db.GetActiveTeamMemberIDsByUserID authorID s with ⟨_ | ids, s1⟩
  · simp [hl] at hcreate
  · simp only [hl] at hcreate
    rcases ha : db.Add prID name authorID
      (getRandomStrings rnd (removeByValue ids authorID) 2) s1 with ⟨_ | e, s3⟩
    · simp only [ha, Prod.mk.injEq, Except.ok.injEq] at hcreate
      refine ⟨ids, s1, rfl, ?_⟩
      intro r hr
      rw [← hcreate.1] at hr
      exact (mem_removeByValue _ _ _).mp (getRandomStrings_mem _ _ _ _ hr)
    · simp [ha] at hcreate

theorem Create_reviewers_from_lookup_witness :
    PRService.Create db.NewPRDB exRnd "pr1" "x" "A" exTeamDB =
        (.ok ⟨⟨"pr1", "x", "A", "OPEN"⟩, ["R2", "R3"], none⟩, exOpenDB) ∧
      ∃ (ids : List String) (s1 : db.DB),
        db.NewPRDB.GetActiveTeamMemberIDsByUserID "A" exTeamDB = (.ok ids, s1) ∧
        ∀ r ∈ ["R2", "R3"], r ∈ ids ∧ r ≠ "A" :=
  ⟨by rfl, Create_reviewers_from_lookup db.NewPRDB exRnd "pr1" "x" "A" exTeamDB exOpenDB
    ⟨⟨"pr1", "x", "A", "OPEN"⟩, ["R2", "R3"], none⟩ (by rfl)⟩

/-- C3: the replacement id returned by a successful `Reassign` is one of the ids
returned by the lookup of the active teammates of `oldReviewerID`; it differs
from `oldReviewerID` and from the author of the PR, and it is none of the
reviewers the PR had before the call, for every outcome `rnd` of the shuffle. -/
theorem Reassign_replacement_eligible {σ : Type} (db : PRDB σ) (rnd : Nat → Nat)
    (prID oldReviewerID : String) (s s3 : σ) (pr1 : PullRequest) (newID : String)
    (h : PRService.Reassign db rnd prID oldReviewerID s = (.ok (pr1, newID), s3)) :
    ∃ (pr : PullRequest) (s1 : σ) (ids : List String) (s2 : σ),
      db.Get prID s = (.ok pr, s1) ∧
      db.GetActiveTeamMemberIDsByUserID oldReviewerID s1 = (.ok ids, s2) ∧
      newID ∈ ids ∧ newID ≠ oldReviewerID ∧ newID ≠ pr.AuthorID ∧ newID ∉ pr.Reviewers := by
  obtain ⟨pr, s1, ids, s2, hget, _, hass, hl, hmem, _⟩ :=
    Reassign_ok_inv db rnd prID oldReviewerID s s3 pr1 newID h
  rw [mem_removeByValue, mem_foldl_removeByValue] at hmem
  refine ⟨pr, s1, ids, s2, hget, hl, hmem.1.1, ?_, hmem.2, hmem.1.2⟩
  intro heq
  exact hmem.1.2 (heq ▸ hass)


theorem Reassign_replacement_eligible_witness :
    PRService.Reassign db.NewPRDB exRnd "pr1" "R3" exOpenDB =
        (.ok (⟨⟨"pr1", "x", "A", "OPEN"⟩, ["R2", "R1"], none⟩, "R1"),
          run exOpenDB [.reassign exRnd "pr1" "R3"]) ∧
      ∃ (pr : PullRequest) (s1 : db.DB) (ids : List String) (s2 : db.DB),
        db.NewPRDB.Get "pr1" exOpenDB = (.ok pr, s1) ∧
        db.NewPRDB.GetActiveTeamMemberIDsByUserID "R3" s1 = (.ok ids, s2) ∧
        "R1" ∈ ids ∧ "R1" ≠ "R3" ∧ "R1" ≠ pr.AuthorID ∧ "R1" ∉ pr.Reviewers :=
  ⟨by rfl, Reassign_replacement_eligible db.NewPRDB exRnd "pr1" "R3" exOpenDB
    (run exOpenDB [.reassign exRnd "pr1" "R3"])
    ⟨⟨"pr1", "x", "A", "OPEN"⟩, ["R2", "R1"], none⟩ "R1" (by rfl)⟩

/-- C4: on a PR that exists and whose status is MERGED, `Reassign` fails with
`ErrAlredyMerged` for every `oldReviewerID`; the only storage call made is the
`Get` (no reviewer is replaced), and the reassign handler answers 409 Conflict
with code `PR_MERGED`. -/
theorem Reassign_merged_conflict {σ : Type} (db : PRDB σ) (rnd : Nat → Nat)
    (prID oldReviewerID : String) (s s1 : σ) (pr : PullRequest)
    (hget : db.Get prID s = (.ok pr, s1)) (hmerged : pr.Status = "MERGED") :
    PRService.Reassign db rnd prID oldReviewerID s = (.error .ErrAlredyMerged, s1) ∧
    PRService.Reassign db.recorded rnd prID oldReviewerID (s, []) =
      (.error .ErrAlredyMerged, (s1, [Call.Get prID])) ∧
    rest.NewReassignPRHandler (NewPRService db rnd) (some ⟨prID, oldReviewerID⟩) s =
      ([rest.Write.WriteHeader 409,
        rest.Write.JSONError ⟨⟨"PR_MERGED", "PR merged"⟩⟩], s1) ∧
    rest.statusOf
      (rest.NewReassignPRHandler (NewPRService db rnd) (some ⟨prID, oldReviewerID⟩) s).1 =
      rest.StatusConflict := by
  have h1 : PRService.Reassign db rnd prID oldReviewerID s = (.error .ErrAlredyMerged, s1) := by
    simp [PRService.Reassign, hget, hmerged]
  have h2 : PRService.Reassign db.recorded rnd prID oldReviewerID (s, []) =
      (.error .ErrAlredyMerged, (s1, [Call.Get prID])) := by
    simp [PRService.Reassign, PRDB.recorded, hget, hmerged]
  have h3 : rest.NewReassignPRHandler (NewPRService db rnd) (some ⟨prID, oldReviewerID⟩) s =
      ([rest.Write.WriteHeader 409,
        rest.Write.JSONError ⟨⟨"PR_MERGED", "PR merged"⟩⟩], s1) := by
    simp [rest.NewReassignPRHandler, NewPRService, h1, rest.writeJSONError,
      rest.StatusConflict, rest.codePrMerged]
  refine ⟨h1, h2, h3, ?_⟩
  rw [h3]
  rfl

theorem Reassign_merged_conflict_witness :
    db.NewPRDB.Get "pr1" exMergedDB =
        (.ok ⟨⟨"pr1", "x", "A", "MERGED"⟩, ["R2", "R3"], some 7⟩, exMergedDB) ∧
      PRService.Reassign db.NewPRDB exRnd "pr1" "nobody" exMergedDB =
        (.error .ErrAlredyMerged, exMergedDB) ∧
      rest.statusOf (rest.NewReassignPRHandler (NewPRService db.NewPRDB exRnd)
        (some ⟨"pr1", "nobody"⟩) exMergedDB).1 = 409 :=
  ⟨by rfl,
    (Reassign_merged_conflict db.NewPRDB exRnd "pr1" "nobody" exMergedDB exMergedDB
      ⟨⟨"pr1", "x", "A", "MERGED"⟩, ["R2", "R3"], some 7⟩ (by rfl) (by rfl)).1,
    (Reassign_merged_conflict db.NewPRDB exRnd "pr1" "nobody" exMergedDB exMergedDB
      ⟨⟨"pr1", "x", "A", "MERGED"⟩, ["R2", "R3"], some 7⟩ (by rfl) (by rfl)).2.2.2⟩

/-- C5: on a PR that exists with status OPEN, `Reassign` with an `oldReviewerID`
that is not in the reviewer list fails with `ErrNotAssigned`; the only storage
call made is the `Get`: no teammate lookup and no write, whoever
`oldReviewerID` is. -/
theorem Reassign_not_assigned {σ : Type} (db : PRDB σ) (rnd : Nat → Nat)
    (prID oldReviewerID : String) (s s1 : σ) (pr : PullRequest)
    (hget : db.Get prID s = (.ok pr, s1)) (hopen : pr.Status = "OPEN")
    (hna : oldReviewerID ∉ pr.Reviewers) :
    PRService.Reassign db rnd prID oldReviewerID s = (.error .ErrNotAssigned, s1) ∧
    PRService.Reassign db.recorded rnd prID oldReviewerID (s, []) =
      (.error .ErrNotAssigned, (s1, [Call.Get prID])) := by
  constructor
  · simp [PRService.Reassign, hget, hopen, hna]
  · simp [PRService.Reassign, PRDB.recorded, hget, hopen, hna]


theorem Reassign_not_assigned_witness :
    db.NewPRDB.Get "pr1" exOpenDB =
        (.ok ⟨⟨"pr1", "x", "A", "OPEN"⟩, ["R2", "R3"], none⟩, exOpenDB) ∧
      "nobody" ∉ ["R2", "R3"] ∧
      PRService.Reassign db.NewPRDB exRnd "pr1" "nobody" exOpenDB =
        (.error .ErrNotAssigned, exOpenDB) ∧
      PRService.Reassign db.NewPRDB.recorded exRnd "pr1" "nobody" (exOpenDB, []) =
        (.error .ErrNotAssigned, (exOpenDB, [Call.Get "pr1"])) :=
  ⟨by rfl, by decide,
    Reassign_not_assigned db.NewPRDB exRnd "pr1" "nobody" exOpenDB exOpenDB
      ⟨⟨"pr1", "x", "A", "OPEN"⟩, ["R2", "R3"], none⟩ (by rfl) (by rfl) (by decide)⟩

/-- C6: on an OPEN PR of the PostgreSQL storage, with `oldReviewerID` a current
reviewer and a successful teammate lookup, `Reassign` fails with `ErrNoCandidate`
if and only if every id returned by the lookup is a current reviewer or the
author. In that case the store is left as it was and the calls made are the two
reads only; otherwise the third call is the swap `UpdateReviewer`, with a
replacement taken from the lookup. -/
theorem Reassign_no_candidate_iff (rnd : Nat → Nat) (prID oldReviewerID : String)
    (d : db.DB) (pr : PullRequest) (ids : List String)
    (hget : db.PRDB.Get prID d = (.ok pr, d)) (hopen : pr.Status = "OPEN")
    (hass : oldReviewerID ∈ pr.Reviewers)
    (hlookup : db.PRDB.GetActiveTeamMemberIDsByUserID oldReviewerID d = (.ok ids, d)) :
    ((PRService.Reassign db.NewPRDB rnd prID oldReviewerID d).1 = .error .ErrNoCandidate ↔
      ∀ id ∈ ids, id ∈ pr.Reviewers ∨ id = pr.AuthorID) ∧
    ((∀ id ∈ ids, id ∈ pr.Reviewers ∨ id = pr.AuthorID) →
      PRService.Reassign db.NewPRDB.recorded rnd prID oldReviewerID (d, []) =
        (.error .ErrNoCandidate,
          (d, [Call.Get prID, Call.GetActiveTeamMemberIDsByUserID oldReviewerID]))) ∧
    (¬ (∀ id ∈ ids, id ∈ pr.Reviewers ∨ id = pr.AuthorID) →
      ∃ newID : String, newID ∈ ids ∧
        (PRService.Reassign db.NewPRDB.recorded rnd prID oldReviewerID (d, [])).2.2 =
          [Call.Get prID, Call.GetActiveTeamMemberIDsByUserID oldReviewerID,
            Call.UpdateReviewer prID oldReviewerID newID]) := by
  have h := Reassign_no_candidate_of_storage db.NewPRDB rnd prID oldReviewerID d d d pr ids
    hget hopen hass hlookup
    (fun newID => db.UpdateReviewer_ne_ErrNoCandidate prID oldReviewerID newID d)
  refine ⟨h.1, h.2.1, ?_⟩
  intro hn
  obtain ⟨newID, hm, htr⟩ := h.2.2 hn
  exact ⟨newID, hm, congrArg Prod.snd htr⟩

theorem Reassign_no_candidate_iff_witness :
    db.PRDB.Get "pr2" exSmallDB =
        (.ok ⟨⟨"pr2", "y", "B", "OPEN"⟩, ["R5", "R4"], none⟩, exSmallDB) ∧
      db.PRDB.GetActiveTeamMemberIDsByUserID "R4" exSmallDB =
        (.ok ["B", "R4", "R5"], exSmallDB) ∧
      (∀ id ∈ ["B", "R4", "R5"], id ∈ ["R5", "R4"] ∨ id = "B") ∧
      (PRService.Reassign db.NewPRDB exRnd "pr2" "R4" exSmallDB).1 = .error .ErrNoCandidate :=
  ⟨by rfl, by rfl, by decide,
    (Reassign_no_candidate_iff exRnd "pr2" "R4" exSmallDB
      ⟨⟨"pr2", "y", "B", "OPEN"⟩, ["R5", "R4"], none⟩ ["B", "R4", "R5"] (by rfl) (by rfl)
      (by decide) (by rfl)).1.mpr (by decide)⟩

/-- C7: after a successful `Reassign` on the PostgreSQL storage, the reviewer list
returned, which is also the one stored, is the previous list with
`oldReviewerID` replaced by the returned replacement: it does not contain
`oldReviewerID`, it contains the replacement, it has the same length, every
other reviewer is still there, and id, name, author and status are unchanged. -/
theorem Reassign_swaps_reviewer (rnd : Nat → Nat) (prID oldReviewerID : String)
    (d d1 : db.DB) (pr1 : PullRequest) (newID : String)
    (h : PRService.Reassign db.NewPRDB rnd prID oldReviewerID d = (.ok (pr1, newID), d1)) :
    ∃ pr : PullRequest,
      db.PRDB.Get prID d = (.ok pr, d) ∧
      db.PRDB.Get prID d1 = (.ok pr1, d1) ∧
      pr1.Reviewers = pr.Reviewers.map (fun x => if x = oldReviewerID then newID else x) ∧
      oldReviewerID ∉ pr1.Reviewers ∧ newID ∈ pr1.Reviewers ∧
      pr1.Reviewers.length = pr.Reviewers.length ∧
      (∀ r ∈ pr.Reviewers, r ≠ oldReviewerID → r ∈ pr1.Reviewers) ∧
      pr1.ID = pr.ID ∧ pr1.Name = pr.Name ∧ pr1.AuthorID = pr.AuthorID ∧
      pr1.Status = pr.Status := by
  obtain ⟨pr, s1, ids, s2, hget, _, hass, hl, hmem, hupd⟩ :=
    Reassign_ok_inv db.NewPRDB rnd prID oldReviewerID d d1 pr1 newID h
  rw [mem_removeByValue, mem_foldl_removeByValue] at hmem
  obtain ⟨hs1, r, hfind, hpr⟩ := db.Get_ok prID d s1 pr hget
  rw [hs1] at hget hl
  obtain ⟨hs2, _⟩ := db.lookup_ok oldReviewerID d s2 ids hl
  rw [hs2] at hupd
  obtain ⟨cur, hfind1, _, _, hpr1, hd1⟩ := db.UpdateReviewer_ok prID oldReviewerID newID d d1 pr1 hupd
  rw [hfind] at hfind1
  cases hfind1
  have hid : r.ID = prID := db.find?_ID _ _ _ hfind
  rw [db.replaceRow_of_ID _ _ _ _ hid] at hpr1
  have hne : newID ≠ oldReviewerID := fun heq => hmem.1.2 (heq ▸ hass)
  have hrev : pr1.Reviewers = pr.Reviewers.map (fun x => if x = oldReviewerID then newID else x) := by
    rw [hpr1, hpr]
    simp [db.PullRequest.toCore, db.array_replace]
  refine ⟨pr, hget, ?_, hrev, ?_, ?_, ?_, ?_, ?_, ?_, ?_, ?_⟩
  · rw [db.Get_eq, hd1]
    simp only
    rw [db.find?_map_key _ _ _ (db.replaceRow_ID prID oldReviewerID newID), hfind]
    simp only [Option.map_some', db.replaceRow_of_ID _ _ _ _ hid]
    rw [hpr1]
  · rw [hrev, List.mem_map]
    rintro ⟨x, _, hx⟩
    by_cases hxo : x = oldReviewerID
    · rw [if_pos hxo] at hx
      exact hne hx
    · rw [if_neg hxo] at hx
      exact hxo hx
  · rw [hrev, List.mem_map]
    exact ⟨oldReviewerID, hass, by simp⟩
  · rw [hrev, List.length_map]
  · intro x hx hxo
    rw [hrev, List.mem_map]
    exact ⟨x, hx, by simp [hxo]⟩
  · rw [hpr1, hpr]; rfl
  · rw [hpr1, hpr]; rfl
  · rw [hpr1, hpr]; rfl
  · rw [hpr1, hpr]; rfl

theorem Reassign_swaps_reviewer_witness :
    PRService.Reassign db.NewPRDB exRnd "pr1" "R3" exOpenDB =
        (.ok (⟨⟨"pr1", "x", "A", "OPEN"⟩, ["R2", "R1"], none⟩, "R1"),
          run exOpenDB [.reassign exRnd "pr1" "R3"]) ∧
      ∃ pr : PullRequest,
        db.PRDB.Get "pr1" exOpenDB = (.ok pr, exOpenDB) ∧
        ["R2", "R1"] = pr.Reviewers.map (fun x => if x = "R3" then "R1" else x) :=
  ⟨by rfl,
    match Reassign_swaps_reviewer exRnd "pr1" "R3" exOpenDB
        (run exOpenDB [.reassign exRnd "pr1" "R3"])
        ⟨⟨"pr1", "x", "A", "OPEN"⟩, ["R2", "R1"], none⟩ "R1" (by rfl) with
    | ⟨pr, h1, _, h3, _⟩ => ⟨pr, h1, h3⟩⟩

/-- C8: `Merge` is idempotent on the PostgreSQL storage. For a PR that exists, the
first call succeeds with status MERGED and a `mergedAt` that is set; a second
call, at any later clock value `now`, succeeds and returns the very same PR, so
its `mergedAt` is the one of the first call and every other field is equal. -/
theorem Merge_idempotent (id : String) (d : db.DB) (now : Nat) (pr : PullRequest)
    (hex : db.PRDB.Get id d = (.ok pr, d)) :
    ∃ (pr1 : PullRequest) (d1 : db.DB),
      PRService.Merge db.NewPRDB id d = (.ok pr1, d1) ∧
      PRService.Merge db.NewPRDB id { d1 with clock := now } =
        (.ok pr1, { d1 with clock := now }) ∧
      pr1.Status = "MERGED" ∧ pr1.MergedAt = db.COALESCE pr.MergedAt d.clock ∧
      pr1.MergedAt ≠ none := by
  obtain ⟨_, r, hfind, hpr⟩ := db.Get_ok id d d pr hex
  have hid : r.ID = id := db.find?_ID _ _ _ hfind
  have hm1 : PRService.Merge db.NewPRDB id d =
      (.ok (db.mergeRow id d.clock r).toCore,
        { d with prs := d.prs.map (db.mergeRow id d.clock) }) := by
    have : db.PRDB.UpdateMerged id d = _ := db.UpdateMerged_eq id d
    rw [hfind] at this
    simp only [PRService.Merge, db.NewPRDB, this]
  refine ⟨_, _, hm1, ?_, ?_, ?_, ?_⟩
  · have := db.UpdateMerged_eq id
      { d with prs := d.prs.map (db.mergeRow id d.clock), clock := now }
    simp only at this
    rw [db.find?_map_key _ _ _ (db.mergeRow_ID id d.clock), hfind] at this
    simp only [Option.map_some'] at this
    simp only [PRService.Merge, db.NewPRDB, this]
    rw [List.map_map]
    have hfun : db.mergeRow id now ∘ db.mergeRow id d.clock = db.mergeRow id d.clock := by
      funext x
      exact db.mergeRow_idem id d.clock now x
    rw [hfun, db.mergeRow_idem]
  · simp [db.mergeRow, hid, db.PullRequest.toCore]
  · simp [db.mergeRow, hid, db.PullRequest.toCore, hpr]
  · simp only [db.mergeRow, hid, db.PullRequest.toCore, beq_self_eq_true, if_true]
    unfold db.COALESCE
    split <;> simp

theorem Merge_idempotent_witness :
    db.PRDB.Get "pr1" exOpenDB =
        (.ok ⟨⟨"pr1", "x", "A", "OPEN"⟩, ["R2", "R3"], none⟩, exOpenDB) ∧
      ∃ (pr1 : PullRequest) (d1 : db.DB),
        PRService.Merge db.NewPRDB "pr1" exOpenDB = (.ok pr1, d1) ∧
        PRService.Merge db.NewPRDB "pr1" { d1 with clock := 9 } =
          (.ok pr1, { d1 with clock := 9 }) ∧
        pr1.Status = "MERGED" ∧ pr1.MergedAt = some 0 :=
  ⟨by rfl,
    match Merge_idempotent "pr1" exOpenDB 9
        ⟨⟨"pr1", "x", "A", "OPEN"⟩, ["R2", "R3"], none⟩ (by rfl) with
    | ⟨pr1, d1, h1, h2, h3, h4, _⟩ => ⟨pr1, d1, h1, h2, h3, h4⟩⟩

/-- C9: in every state reached from the empty store by a sequence of team add,
set-active, Create, Merge and Reassign requests served one at a time (and clock
moves), every stored PR has a reviewer list without duplicates, without the
author of the PR, and with at most 2 entries. -/
theorem reviewers_invariant (ops : List Op) (r : db.PullRequest)
    (hr : r ∈ (run db.empty ops).prs) :
    r.Reviewers.Nodup ∧ r.AuthorID ∉ r.Reviewers ∧ r.Reviewers.length ≤ 2 :=
  (Inv_run ops db.empty Inv_empty).reviewers_ok r hr

theorem reviewers_invariant_witness :
    (⟨"pr1", "x", "A", "OPEN", ["R2", "R1"], none⟩ : db.PullRequest) ∈
        (run db.empty [.teamAdd exTeam, .create exRnd "pr1" "x" "A",
          .reassign exRnd "pr1" "R3"]).prs ∧
      ["R2", "R1"].Nodup ∧ "A" ∉ ["R2", "R1"] ∧ ["R2", "R1"].length ≤ 2 :=
  ⟨by decide,
    reviewers_invariant [.teamAdd exTeam, .create exRnd "pr1" "x" "A",
      .reassign exRnd "pr1" "R3"] ⟨"pr1", "x", "A", "OPEN", ["R2", "R1"], none⟩ (by decide)⟩


/-- C10: MERGED is terminal. If in a reachable state the PR `id` reads as `pr` with
status MERGED, then after any further requests `later` (Merge, Reassign with any
reviewer id, Create, set-active, team add, clock moves) the PR `id` still reads
as the same `pr`: status, reviewer list and `mergedAt` are unchanged. -/
theorem merged_is_terminal (ops later : List Op) (id : String) (pr : PullRequest)
    (hget : (db.PRDB.Get id (run db.empty ops)).1 = .ok pr) (hm : pr.Status = "MERGED") :
    (db.PRDB.Get id (run (run db.empty ops) later)).1 = .ok pr := by
  rw [db.Get_eq] at hget
  rw [db.Get_eq]
  cases hf : (run db.empty ops).prs.find? (fun x => x.ID == id) with
  | none => simp [hf] at hget
  | some r =>
    simp only [hf, Except.ok.injEq] at hget
    have hmr : r.Status = "MERGED" := by rw [← hget] at hm; exact hm
    rw [run_find_merged later _ id r (Inv_run ops db.empty Inv_empty) hf hmr]
    simp only [hget]

theorem merged_is_terminal_witness :
    (db.PRDB.Get "pr1" (run db.empty [.teamAdd exTeam, .create exRnd "pr1" "x" "A",
        .tick 7, .merge "pr1"])).1 = .ok ⟨⟨"pr1", "x", "A", "MERGED"⟩, ["R2", "R3"], some 7⟩ ∧
      (db.PRDB.Get "pr1" (run (run db.empty [.teamAdd exTeam, .create exRnd "pr1" "x" "A",
        .tick 7, .merge "pr1"]) [.tick 9, .merge "pr1", .reassign exRnd "pr1" "R3",
          .create exRnd "pr1" "z" "R1", .setIsActive "R2" false, .teamAdd exSmallTeam])).1 =
        .ok ⟨⟨"pr1", "x", "A", "MERGED"⟩, ["R2", "R3"], some 7⟩ :=
  ⟨by rfl,
    merged_is_terminal [.teamAdd exTeam, .create exRnd "pr1" "x" "A", .tick 7, .merge "pr1"]
      [.tick 9, .merge "pr1", .reassign exRnd "pr1" "R3", .create exRnd "pr1" "z" "R1",
        .setIsActive "R2" false, .teamAdd exSmallTeam] "pr1"
      ⟨⟨"pr1", "x", "A", "MERGED"⟩, ["R2", "R3"], some 7⟩ (by rfl) (by rfl)⟩

/-- C11: for every pool of ids without duplicates, every count `N` and every outcome
`rnd` of the shuffle, `getRandomStrings(pool, N)` returns exactly
`min(N, len(pool))` ids, each taken from a different position of the pool
(selection without replacement: the result is a sub-multiset of the pool), so
the returned ids are distinct; it returns fewer than `N` when the pool is
smaller than `N`, and nothing for an empty pool. Every pool that `Create` or
`Reassign` builds from a teammate lookup in a reachable state is such a pool
(last part). -/
theorem getRandomStrings_selection (rnd : Nat → Nat) (pool : List String) (N : Nat)
    (hpool : pool.Nodup) :
    (getRandomStrings rnd pool N).length = min N pool.length ∧
    List.Subperm (getRandomStrings rnd pool N) pool ∧
    (getRandomStrings rnd pool N).Nodup ∧
    (pool.length < N → (getRandomStrings rnd pool N).length < N) ∧
    getRandomStrings rnd [] N = [] ∧
    (∀ (ops : List Op) (userID : String) (ids : List String) (d1 : db.DB)
      (revs : List String) (author : String),
      db.PRDB.GetActiveTeamMemberIDsByUserID userID (run db.empty ops) = (.ok ids, d1) →
      (removeByValue (revs.foldl removeByValue ids) author).Nodup ∧
      (getRandomStrings rnd (removeByValue (revs.foldl removeByValue ids) author) N).Nodup) := by
  refine ⟨getRandomStrings_length rnd pool N, ?_, getRandomStrings_nodup rnd pool N hpool, ?_,
    rfl, ?_⟩
  · rw [getRandomStrings_eq]
    exact (List.take_sublist N (Shuffle rnd pool)).subperm.trans (Shuffle_perm rnd pool).subperm
  · intro h
    rw [getRandomStrings_length]
    omega
  · intro ops userID ids d1 revs author hlookup
    have hn := service_pool_nodup ops userID ids d1 revs author hlookup
    exact ⟨hn, getRandomStrings_nodup rnd _ N hn⟩

theorem getRandomStrings_selection_witness :
    ["R1", "R2", "R3"].Nodup ∧
      (getRandomStrings exRnd ["R1", "R2", "R3"] 2).length = 2 ∧
      (getRandomStrings exRnd ["R1", "R2", "R3"] 2).Nodup :=
  ⟨by decide,
    (getRandomStrings_selection exRnd ["R1", "R2", "R3"] 2 (by decide)).1,
    (getRandomStrings_selection exRnd ["R1", "R2", "R3"] 2 (by decide)).2.2.1⟩

/-- C12, as the code has it: `getRandomStrings` shuffles the caller's pool in place.
After the call the pool holds the same ids with the same multiplicities, in an
order that depends on the shuffle; the returned slice is the first `N` cells of
that reordered pool; a pool of at most one id is left as it was. -/
theorem getRandomStrings_pool_after (rnd : Nat → Nat) (pool : List String) (N : Nat) :
    (getRandomStringsMem rnd pool).Perm pool ∧
    getRandomStrings rnd pool N = (getRandomStringsMem rnd pool).take N ∧
    (pool.length ≤ 1 → getRandomStringsMem rnd pool = pool) := by
  unfold getRandomStringsMem
  by_cases h : pool.length = 0
  · have hp : pool = [] := List.length_eq_zero.mp h
    subst hp
    exact ⟨List.Perm.refl _, by simp [getRandomStrings], fun _ => rfl⟩
  · rw [if_neg h]
    exact ⟨Shuffle_perm rnd pool, getRandomStrings_eq rnd pool N, Shuffle_short rnd pool⟩

/-- A pool of two ids after `getRandomStrings`: the caller sees them swapped. -/
theorem getRandomStrings_reorders_pool :
    getRandomStringsMem exRnd ["a", "b"] ≠ ["a", "b"] := by decide

/-- C13: if the lookup of the author's active teammates returns pairwise distinct
ids of which exactly two differ from the author, and the insert succeeds, then
for every outcome `rnd` of the shuffle the PR returned by `Create` has status OPEN
and its reviewer list consists of exactly those two ids: an id is a reviewer if
and only if it is a lookup id other than the author, and the list has two
distinct entries. -/
theorem Create_two_teammates {σ : Type} (db : PRDB σ) (rnd : Nat → Nat)
    (prID name authorID : String) (s s1 s2 : σ) (ids : List String)
    (hlookup : db.GetActiveTeamMemberIDsByUserID authorID s = (.ok ids, s1))
    (hdistinct : ids.Nodup)
    (htwo : ids.countP (fun id => id != authorID) = 2)
    (hadd : db.Add prID name authorID
      (getRandomStrings rnd (removeByValue ids authorID) 2) s1 = (none, s2)) :
    ∃ pr : PullRequest,
      PRService.Create db rnd prID name authorID s = (.ok pr, s2) ∧
      pr.Status = "OPEN" ∧
      (∀ r : String, r ∈ pr.Reviewers ↔ (r ∈ ids ∧ r ≠ authorID)) ∧
      pr.Reviewers.length = 2 ∧ pr.Reviewers.Nodup := by
  have hc : PRService.Create db rnd prID name authorID s =
      (.ok { ID := prID, Name := name, AuthorID := authorID, Status := "OPEN",
             Reviewers := getRandomStrings rnd (removeByValue ids authorID) 2,
             MergedAt := none }, s2) := by
    simp only [PRService.Create, hlookup, hadd]
  have hlen : (removeByValue ids authorID).length = 2 := by
    rw [removeByValue_length]; exact htwo
  have hall : getRandomStrings rnd (removeByValue ids authorID) 2 =
      Shuffle rnd (removeByValue ids authorID) := by
    rw [getRandomStrings_eq]
    exact List.take_of_length_le (by rw [Shuffle_length, hlen])
  have hperm : (getRandomStrings rnd (removeByValue ids authorID) 2).Perm
      (removeByValue ids authorID) := by
    rw [hall]; exact Shuffle_perm rnd _
  refine ⟨_, hc, rfl, ?_, ?_, ?_⟩
  · intro r
    show r ∈ getRandomStrings rnd (removeByValue ids authorID) 2 ↔ _
    rw [hperm.mem_iff, mem_removeByValue]
  · show (getRandomStrings rnd (removeByValue ids authorID) 2).length = 2
    rw [hperm.length_eq, hlen]
  · show (getRandomStrings rnd (removeByValue ids authorID) 2).Nodup
    exact hperm.nodup_iff.mpr (removeByValue_nodup ids authorID hdistinct)

theorem Create_two_teammates_witness :
    db.NewPRDB.GetActiveTeamMemberIDsByUserID "B" (run db.empty [.teamAdd exSmallTeam]) =
        (.ok ["B", "R4", "R5"], run db.empty [.teamAdd exSmallTeam]) ∧
      ∃ pr : PullRequest,
        PRService.Create db.NewPRDB exRnd "pr2" "y" "B" (run db.empty [.teamAdd exSmallTeam]) =
          (.ok pr, exSmallDB) ∧
        pr.Status = "OPEN" ∧ "R4" ∈ pr.Reviewers ∧ "R5" ∈ pr.Reviewers ∧
        pr.Reviewers.length = 2 :=
  ⟨by rfl,
    match Create_two_teammates db.NewPRDB exRnd "pr2" "y" "B"
        (run db.empty [.teamAdd exSmallTeam]) (run db.empty [.teamAdd exSmallTeam]) exSmallDB
        ["B", "R4", "R5"] (by rfl) (by decide) (by decide) (by rfl) with
    | ⟨pr, h1, h2, h3, h4, _⟩ =>
      ⟨pr, h1, h2, (h3 "R4").mpr (by decide), (h3 "R5").mpr (by decide), h4⟩⟩

/-- C14: `Reassign` is deterministic when exactly one candidate remains. If the
lookup ids that are neither current reviewers nor the author are exactly `[c]`,
then for every outcome `rnd` of the shuffle `Reassign` passes `c` to the storage
swap `UpdateReviewer` (third and last storage call), a successful run returns
`c` as the replacement, and runs with different randomness give the same
result. -/
theorem Reassign_single_candidate {σ : Type} (db : PRDB σ) (rnd : Nat → Nat)
    (prID oldReviewerID : String) (s s1 s2 : σ) (pr : PullRequest) (ids : List String)
    (c : String)
    (hget : db.Get prID s = (.ok pr, s1)) (hst : pr.Status ≠ "MERGED")
    (hass : oldReviewerID ∈ pr.Reviewers)
    (hlookup : db.GetActiveTeamMemberIDsByUserID oldReviewerID s1 = (.ok ids, s2))
    (hone : ids.filter (fun id => !pr.Reviewers.contains id && id != pr.AuthorID) = [c]) :
    PRService.Reassign db rnd prID oldReviewerID s =
      (match db.UpdateReviewer prID oldReviewerID c s2 with
        | (.error err, s3) => (.error err, s3)
        | (.ok pullReq, s3) => (.ok (pullReq, c), s3)) ∧
    (PRService.Reassign db.recorded rnd prID oldReviewerID (s, [])).2.2 =
      [Call.Get prID, Call.GetActiveTeamMemberIDsByUserID oldReviewerID,
        Call.UpdateReviewer prID oldReviewerID c] ∧
    (∀ (pr1 : PullRequest) (newID : String) (s3 : σ),
      PRService.Reassign db rnd prID oldReviewerID s = (.ok (pr1, newID), s3) → newID = c) ∧
    (∀ rnd1 : Nat → Nat,
      PRService.Reassign db rnd1 prID oldReviewerID s =
        PRService.Reassign db rnd prID oldReviewerID s) := by
  have hpool : removeByValue (pr.Reviewers.foldl removeByValue ids) pr.AuthorID = [c] := by
    rw [pool_eq_filter, hone]
  have hrun : ∀ r : Nat → Nat, PRService.Reassign db r prID oldReviewerID s =
      (match db.UpdateReviewer prID oldReviewerID c s2 with
        | (.error err, s3) => (.error err, s3)
        | (.ok pullReq, s3) => (.ok (pullReq, c), s3)) := by
    intro r
    rw [Reassign_after_lookup db r prID oldReviewerID s s1 s2 pr ids hget hst hass hlookup,
      hpool, getRandomStrings_singleton]
    simp only [List.length_singleton, Nat.lt_irrefl, if_false]
  have hgetR : db.recorded.Get prID (s, []) = (.ok pr, (s1, [Call.Get prID])) := by
    rw [recorded_Get, hget]; rfl
  have hlookupR : db.recorded.GetActiveTeamMemberIDsByUserID oldReviewerID (s1, [Call.Get prID]) =
      (.ok ids, (s2, [Call.Get prID, Call.GetActiveTeamMemberIDsByUserID oldReviewerID])) := by
    rw [recorded_lookup, hlookup]; rfl
  refine ⟨hrun rnd, ?_, ?_, ?_⟩
  · rw [Reassign_after_lookup db.recorded rnd prID oldReviewerID (s, []) _ _ pr ids
      hgetR hst hass hlookupR, hpool, getRandomStrings_singleton]
    simp only [List.length_singleton, Nat.lt_irrefl, if_false, recorded_UpdateReviewer]
    rcases db.UpdateReviewer prID oldReviewerID c s2 with ⟨e | p, s4⟩ <;> rfl
  · intro pr1 newID s3 h
    rw [hrun rnd] at h
    rcases hu : db.UpdateReviewer prID oldReviewerID c s2 with ⟨e | p, s4⟩
    · rw [hu] at h; simp at h
    · rw [hu] at h
      simp only [Prod.mk.injEq, Except.ok.injEq] at h
      exact h.1.2.symm
  · intro rnd1
    rw [hrun rnd1, hrun rnd]

theorem Reassign_single_candidate_witness :
    db.NewPRDB.Get "pr1" exOpenDB =
        (.ok ⟨⟨"pr1", "x", "A", "OPEN"⟩, ["R2", "R3"], none⟩, exOpenDB) ∧
      db.NewPRDB.GetActiveTeamMemberIDsByUserID "R3" exOpenDB =
        (.ok ["A", "R1", "R2", "R3"], exOpenDB) ∧
      ["A", "R1", "R2", "R3"].filter (fun id => !(["R2", "R3"].contains id) && id != "A") =
        ["R1"] ∧
      (PRService.Reassign db.NewPRDB.recorded (fun _ => 5) "pr1" "R3" (exOpenDB, [])).2.2 =
        [Call.Get "pr1", Call.GetActiveTeamMemberIDsByUserID "R3",
          Call.UpdateReviewer "pr1" "R3" "R1"] :=
  ⟨by rfl, by rfl, by decide,
    (Reassign_single_candidate db.NewPRDB (fun _ => 5) "pr1" "R3" exOpenDB exOpenDB exOpenDB
      ⟨⟨"pr1", "x", "A", "OPEN"⟩, ["R2", "R3"], none⟩ ["A", "R1", "R2", "R3"] "R1"
      (by rfl) (by decide) (by decide) (by rfl) (by decide)).2.1⟩

/-- C15, as the code has it: every reviewer id placed by `Create` is, in the state
of the call, an active member of the team of the author; the replacement placed
by `Reassign` is, in the state of the call, an active member of the team of the
replaced reviewer, hence of the team of the author whenever the replaced
reviewer is then in that team. This holds in every state `d` of the store, so in
every reachable one. -/
theorem reviewers_assigned_from_team (d : db.DB) :
    (∀ (rnd : Nat → Nat) (prID name authorID : String) (pr : PullRequest) (d2 : db.DB),
      PRService.Create db.NewPRDB rnd prID name authorID d = (.ok pr, d2) →
      ∃ t, db.teamOf d authorID = some t ∧
        ∀ r ∈ pr.Reviewers, db.activeMember d t r = true) ∧
    (∀ (rnd : Nat → Nat) (prID oldReviewerID : String) (pr1 : PullRequest) (newID : String)
      (d2 : db.DB),
      PRService.Reassign db.NewPRDB rnd prID oldReviewerID d = (.ok (pr1, newID), d2) →
      ∃ t, db.teamOf d oldReviewerID = some t ∧ db.activeMember d t newID = true) ∧
    (∀ (rnd : Nat → Nat) (prID oldReviewerID : String) (pr pr1 : PullRequest) (newID : String)
      (d2 : db.DB),
      PRService.Reassign db.NewPRDB rnd prID oldReviewerID d = (.ok (pr1, newID), d2) →
      db.PRDB.Get prID d = (.ok pr, d) →
      db.teamOf d oldReviewerID = db.teamOf d pr.AuthorID →
      ∃ t, db.teamOf d pr.AuthorID = some t ∧ db.activeMember d t newID = true) := by
  have hre : ∀ (rnd : Nat → Nat) (prID oldReviewerID : String) (pr1 : PullRequest)
      (newID : String) (d2 : db.DB),
      PRService.Reassign db.NewPRDB rnd prID oldReviewerID d = (.ok (pr1, newID), d2) →
      ∃ t, db.teamOf d oldReviewerID = some t ∧ db.activeMember d t newID = true := by
    intro rnd prID oldReviewerID pr1 newID d2 h
    obtain ⟨pr, s1, ids, s2, hget, _, _, hl, hmem, _⟩ :=
      Reassign_ok_inv db.NewPRDB rnd prID oldReviewerID d d2 pr1 newID h
    rw [mem_removeByValue, mem_foldl_removeByValue] at hmem
    obtain ⟨hs1, _⟩ := db.Get_ok prID d s1 pr hget
    rw [hs1] at hl
    obtain ⟨t, ht, hall⟩ := db.lookup_activeMember oldReviewerID d s2 ids hl
    exact ⟨t, ht, hall newID hmem.1.1⟩
  refine ⟨?_, hre, ?_⟩
  · intro rnd prID name authorID pr d2 h
    obtain ⟨ids, s1, hl, _, hpr⟩ := Create_ok_inv db.NewPRDB rnd prID name authorID d d2 pr h
    obtain ⟨t, ht, hall⟩ := db.lookup_activeMember authorID d s1 ids hl
    refine ⟨t, ht, ?_⟩
    intro r hr
    rw [hpr] at hr
    exact hall r ((mem_removeByValue _ _ _).mp (getRandomStrings_mem _ _ _ _ hr)).1
  · intro rnd prID oldReviewerID pr pr1 newID d2 h _ hteam
    rw [← hteam]
    exact hre rnd prID oldReviewerID pr1 newID d2 h

theorem reviewers_assigned_from_team_witness :
    PRService.Reassign db.NewPRDB exRnd "pr1" "R2" exMovedDB =
        (.ok (⟨⟨"pr1", "x", "A", "OPEN"⟩, ["X", "R3"], none⟩, "X"),
          run exMovedDB [.reassign exRnd "pr1" "R2"]) ∧
      ∃ t, db.teamOf exMovedDB "R2" = some t ∧ db.activeMember exMovedDB t "X" = true :=
  ⟨by rfl,
    (reviewers_assigned_from_team exMovedDB).2.1 exRnd "pr1" "R2"
      ⟨⟨"pr1", "x", "A", "OPEN"⟩, ["X", "R3"], none⟩ "X"
      (run exMovedDB [.reassign exRnd "pr1" "R2"]) (by rfl)⟩

/-- A reassignment after the replaced reviewer `R2` has moved to team `U`: the
replacement `X` comes from `U`, and is no member of team `T` of the author `A`. -/
theorem Reassign_outside_author_team :
    (PRService.Reassign db.NewPRDB exRnd "pr1" "R2" exMovedDB).1 =
        .ok (⟨⟨"pr1", "x", "A", "OPEN"⟩, ["X", "R3"], none⟩, "X") ∧
      db.teamOf exMovedDB "A" = some "T" ∧
      db.activeMember exMovedDB "T" "X" = false :=
  ⟨by rfl, by rfl, by rfl⟩

/-- C16, as the code has it: for every existing user `uid`, set-active leaves id,
name and team name as they are and changes `isActive` of the named user only;
Create, Merge and Reassign change no row of `users`; a team add that fails
changes no row of `users`; a team add leaves the user untouched when its id is
not among the added members; and a team add that succeeds with the id among its
members (upsert by id) overwrites the name, team name and activity flag of the
user with those of the added member. -/
theorem user_fields_frame (d : db.DB) (uid : String) (u : db.User)
    (hu : d.users.find? (fun x => x.ID == uid) = some u) :
    (∀ (id : String) (b : Bool),
      (step d (.setIsActive id b)).users.find? (fun x => x.ID == uid) =
        some (if uid = id then { u with IsActive := b } else u)) ∧
    (∀ (rnd : Nat → Nat) (prID name authorID : String),
      (step d (.create rnd prID name authorID)).users = d.users) ∧
    (∀ id : String, (step d (.merge id)).users = d.users) ∧
    (∀ (rnd : Nat → Nat) (prID oldReviewerID : String),
      (step d (.reassign rnd prID oldReviewerID)).users = d.users) ∧
    (∀ team : Team, (db.TeamDB.Add team d).1 ≠ none →
      (step d (.teamAdd team)).users = d.users) ∧
    (∀ team : Team, uid ∉ team.Members.map TeamMember.ID →
      (step d (.teamAdd team)).users.find? (fun x => x.ID == uid) = some u) ∧
    (∀ (team : Team) (m : TeamMember), m ∈ team.Members → m.ID = uid →
      (db.TeamDB.Add team d).1 = none →
      (step d (.teamAdd team)).users.find? (fun x => x.ID == uid) =
        some ⟨uid, m.Name, team.Name, m.IsActive⟩) := by
  refine ⟨?_, step_create_users d, step_merge_users d, step_reassign_users d, ?_, ?_, ?_⟩
  · intro id b
    have hs : step d (.setIsActive id b) = (db.UserDB.UpdateIsActive id b d).2 :=
      UserService_SetFlag_snd db.NewUserDB id b d
    rw [hs]
    exact db.UpdateIsActive_find id uid b d u hu
  · intro team hfail
    have hs : step d (.teamAdd team) = (db.TeamDB.Add team d).2 :=
      TeamService_Create_snd db.NewTeamDB team d
    rw [hs, db.TeamDB_Add_failed team d hfail]
  · intro team hnot
    have hs : step d (.teamAdd team) = (db.TeamDB.Add team d).2 :=
      TeamService_Create_snd db.NewTeamDB team d
    rw [hs, db.TeamDB_Add_find_other team d uid hnot, hu]
  · intro team m hm hid hok
    have hs : step d (.teamAdd team) = (db.TeamDB.Add team d).2 :=
      TeamService_Create_snd db.NewTeamDB team d
    rw [hs, ← hid]
    exact db.TeamDB_Add_find_member team d m hm hok

theorem user_fields_frame_witness :
    exOpenDB.users.find? (fun x => x.ID == "R2") = some ⟨"R2", "r2", "T", true⟩ ∧
      (step exOpenDB (.setIsActive "R2" false)).users.find? (fun x => x.ID == "R2") =
        some ⟨"R2", "r2", "T", false⟩ ∧
      (db.TeamDB.Add ⟨"T", [⟨"R2", "renamed", false⟩]⟩ exOpenDB).1 = some .ErrAlreadyExists ∧
      (step exOpenDB (.teamAdd ⟨"T", [⟨"R2", "renamed", false⟩]⟩)).users = exOpenDB.users ∧
      (db.TeamDB.Add ⟨"U", [⟨"R2", "renamed", false⟩]⟩ exOpenDB).1 = none ∧
      (step exOpenDB (.teamAdd ⟨"U", [⟨"R2", "renamed", false⟩]⟩)).users.find?
        (fun x => x.ID == "R2") = some ⟨"R2", "renamed", "U", false⟩ :=
  ⟨by rfl,
    (user_fields_frame exOpenDB "R2" ⟨"R2", "r2", "T", true⟩ (by rfl)).1 "R2" false,
    by rfl,
    (user_fields_frame exOpenDB "R2" ⟨"R2", "r2", "T", true⟩ (by rfl)).2.2.2.2.1
      ⟨"T", [⟨"R2", "renamed", false⟩]⟩ (by decide),
    by rfl,
    (user_fields_frame exOpenDB "R2" ⟨"R2", "r2", "T", true⟩ (by rfl)).2.2.2.2.2.2
      ⟨"U", [⟨"R2", "renamed", false⟩]⟩ ⟨"R2", "renamed", false⟩ (by decide) rfl (by rfl)⟩

/-- A team add that names the existing user `R2`: name, team and activity flag of
`R2` are overwritten. -/
theorem teamAdd_rewrites_user :
    exOpenDB.users.find? (fun x => x.ID == "R2") = some ⟨"R2", "r2", "T", true⟩ ∧
      (step exOpenDB (.teamAdd ⟨"U", [⟨"R2", "renamed", false⟩]⟩)).users.find?
        (fun x => x.ID == "R2") = some ⟨"R2", "renamed", "U", false⟩ :=
  ⟨by rfl, by rfl⟩

/-- C17: storage failures are propagated verbatim. Whenever a storage call made by
Create, Merge, Reassign or ListByReviewer returns an error `e`, the operation
returns exactly `e` (an error return carries the zero value of the result) and
the journal of storage calls ends with the failed call: an error of the lookup
in Create comes back without the insert being attempted, an error of the insert
comes back as it is, and likewise for `UpdateMerged`, for the three calls of
Reassign and for `GetByReviewer`. With `e = ErrNotFound` and
`e = ErrAlreadyExists` these are the two cases named for Create. -/
theorem storage_errors_propagate {σ : Type} (db : PRDB σ) (rnd : Nat → Nat) (e : Err) :
    (∀ (prID name authorID : String) (s s1 : σ),
      db.GetActiveTeamMemberIDsByUserID authorID s = (.error e, s1) →
      PRService.Create db rnd prID name authorID s = (.error e, s1) ∧
      (PRService.Create db.recorded rnd prID name authorID (s, [])).2.2 =
        [Call.GetActiveTeamMemberIDsByUserID authorID]) ∧
    (∀ (prID name authorID : String) (s s1 s2 : σ) (ids : List String),
      db.GetActiveTeamMemberIDsByUserID authorID s = (.ok ids, s1) →
      db.Add prID name authorID (getRandomStrings rnd (removeByValue ids authorID) 2) s1 =
        (some e, s2) →
      PRService.Create db rnd prID name authorID s = (.error e, s2) ∧
      (PRService.Create db.recorded rnd prID name authorID (s, [])).2.2 =
        [Call.GetActiveTeamMemberIDsByUserID authorID,
          Call.Add prID name authorID (getRandomStrings rnd (removeByValue ids authorID) 2)]) ∧
    (∀ (id : String) (s s1 : σ),
      db.UpdateMerged id s = (.error e, s1) →
      PRService.Merge db id s = (.error e, s1) ∧
      (PRService.Merge db.recorded id (s, [])).2.2 = [Call.UpdateMerged id]) ∧
    (∀ (prID oldReviewerID : String) (s s1 : σ),
      db.Get prID s = (.error e, s1) →
      PRService.Reassign db rnd prID oldReviewerID s = (.error e, s1) ∧
      (PRService.Reassign db.recorded rnd prID oldReviewerID (s, [])).2.2 = [Call.Get prID]) ∧
    (∀ (prID oldReviewerID : String) (s s1 s2 : σ) (pr : PullRequest),
      db.Get prID s = (.ok pr, s1) → pr.Status ≠ "MERGED" → oldReviewerID ∈ pr.Reviewers →
      db.GetActiveTeamMemberIDsByUserID oldReviewerID s1 = (.error e, s2) →
      PRService.Reassign db rnd prID oldReviewerID s = (.error e, s2) ∧
      (PRService.Reassign db.recorded rnd prID oldReviewerID (s, [])).2.2 =
        [Call.Get prID, Call.GetActiveTeamMemberIDsByUserID oldReviewerID]) ∧
    (∀ (prID oldReviewerID : String) (s s1 s2 s3 : σ) (pr : PullRequest) (ids : List String)
      (c : String) (rest : List String),
      db.Get prID s = (.ok pr, s1) → pr.Status ≠ "MERGED" → oldReviewerID ∈ pr.Reviewers →
      db.GetActiveTeamMemberIDsByUserID oldReviewerID s1 = (.ok ids, s2) →
      getRandomStrings rnd
        (removeByValue (pr.Reviewers.foldl removeByValue ids) pr.AuthorID) 1 = c :: rest →
      db.UpdateReviewer prID oldReviewerID c s2 = (.error e, s3) →
      PRService.Reassign db rnd prID oldReviewerID s = (.error e, s3) ∧
      (PRService.Reassign db.recorded rnd prID oldReviewerID (s, [])).2.2 =
        [Call.Get prID, Call.GetActiveTeamMemberIDsByUserID oldReviewerID,
          Call.UpdateReviewer prID oldReviewerID c]) ∧
    (∀ (reviewerID : String) (s s1 : σ),
      db.GetByReviewer reviewerID s = (.error e, s1) →
      PRService.ListByReviewer db reviewerID s = (.error e, s1) ∧
      (PRService.ListByReviewer db.recorded reviewerID (s, [])).2.2 =
        [Call.GetByReviewer reviewerID]) := by
  refine ⟨?_, ?_, ?_, ?_, ?_, ?_, ?_⟩
  · intro prID name authorID s s1 hl
    constructor
    · simp only [PRService.Create, hl]
    · simp only [PRService.Create, recorded_lookup, hl, List.nil_append]
  · intro prID name authorID s s1 s2 ids hl ha
    constructor
    · simp only [PRService.Create, hl, ha]
    · simp only [PRService.Create, recorded_lookup, recorded_Add, hl, ha, List.nil_append,
        List.singleton_append]
  · intro id s s1 hm
    constructor
    · simp only [PRService.Merge, hm]
    · simp only [PRService.Merge, recorded_UpdateMerged, hm, List.nil_append]
  · intro prID oldReviewerID s s1 hg
    constructor
    · simp only [PRService.Reassign, hg]
    · simp only [PRService.Reassign, recorded_Get, hg, List.nil_append]
  · intro prID oldReviewerID s s1 s2 pr hg hst hass hl
    have h1 : (pr.Status == "MERGED") = false := by simpa using hst
    have h2 : pr.Reviewers.contains oldReviewerID = true := by simpa using hass
    constructor
    · simp only [PRService.Reassign, hg, h1, h2, hl, Bool.not_true, Bool.false_eq_true,
        if_false]
    · simp only [PRService.Reassign, recorded_Get, recorded_lookup, hg, h1, h2, hl,
        Bool.not_true, Bool.false_eq_true, if_false, List.nil_append, List.singleton_append]
  · intro prID oldReviewerID s s1 s2 s3 pr ids c rest hg hst hass hl hc hu
    have hpool : ¬ (removeByValue (pr.Reviewers.foldl removeByValue ids) pr.AuthorID).length < 1 := by
      intro hlt
      have hlen := getRandomStrings_length rnd
        (removeByValue (pr.Reviewers.foldl removeByValue ids) pr.AuthorID) 1
      rw [hc] at hlen
      simp only [List.length_cons] at hlen
      omega
    have hgR : db.recorded.Get prID (s, []) = (.ok pr, (s1, [Call.Get prID])) := by
      rw [recorded_Get, hg]; rfl
    have hlR : db.recorded.GetActiveTeamMemberIDsByUserID oldReviewerID (s1, [Call.Get prID]) =
        (.ok ids, (s2, [Call.Get prID, Call.GetActiveTeamMemberIDsByUserID oldReviewerID])) := by
      rw [recorded_lookup, hl]; rfl
    constructor
    · rw [Reassign_after_lookup db rnd prID oldReviewerID s s1 s2 pr ids hg hst hass hl,
        if_neg hpool, hc]
      simp only [hu]
    · rw [Reassign_after_lookup db.recorded rnd prID oldReviewerID (s, []) _ _ pr ids
        hgR hst hass hlR, if_neg hpool, hc]
      simp only [recorded_UpdateReviewer, hu]
      rfl
  · intro reviewerID s s1 hg
    constructor
    · simp only [PRService.ListByReviewer, hg]
    · simp only [PRService.ListByReviewer, recorded_GetByReviewer, hg, List.nil_append]

theorem storage_errors_propagate_witness :
    db.NewPRDB.GetActiveTeamMemberIDsByUserID "nobody" exTeamDB =
        (.error .ErrNotFound, exTeamDB) ∧
      (PRService.Create db.NewPRDB exRnd "pr9" "x" "nobody" exTeamDB =
          (.error .ErrNotFound, exTeamDB) ∧
        (PRService.Create db.NewPRDB.recorded exRnd "pr9" "x" "nobody" (exTeamDB, [])).2.2 =
          [Call.GetActiveTeamMemberIDsByUserID "nobody"]) ∧
      db.NewPRDB.Add "pr1" "x" "A" ["R2", "R3"] exOpenDB = (some .ErrAlreadyExists, exOpenDB) ∧
      PRService.Create db.NewPRDB exRnd "pr1" "x" "A" exOpenDB =
        (.error .ErrAlreadyExists, exOpenDB) :=
  ⟨by rfl,
    (storage_errors_propagate db.NewPRDB exRnd .ErrNotFound).1 "pr9" "x" "nobody"
      exTeamDB exTeamDB (by rfl),
    by rfl,
    ((storage_errors_propagate db.NewPRDB exRnd .ErrAlreadyExists).2.1 "pr1" "x" "A"
      exOpenDB exOpenDB exOpenDB ["A", "R1", "R2", "R3"] (by rfl) (by rfl)).1⟩

/-- C18: a successful `Create(prID, name, authorID)` on the PostgreSQL storage
returns a PR with exactly the given id, name and author, status OPEN and no
`mergedAt`; its reviewer list is the list passed to the storage insert (second
and last storage call), and a read of `prID` in the resulting store yields the
returned PR itself, so the returned and the persisted PR agree. -/
theorem Create_returns_persisted (rnd : Nat → Nat) (prID name authorID : String)
    (d d2 : db.DB) (pr : PullRequest)
    (h : PRService.Create db.NewPRDB rnd prID name authorID d = (.ok pr, d2)) :
    pr.ID = prID ∧ pr.Name = name ∧ pr.AuthorID = authorID ∧ pr.Status = "OPEN" ∧
    pr.MergedAt = none ∧
    (PRService.Create db.NewPRDB.recorded rnd prID name authorID (d, [])).2.2 =
      [Call.GetActiveTeamMemberIDsByUserID authorID,
        Call.Add prID name authorID pr.Reviewers] ∧
    db.PRDB.Get prID d2 = (.ok pr, d2) := by
  obtain ⟨ids, s1, hl, ha, hpr⟩ := Create_ok_inv db.NewPRDB rnd prID name authorID d d2 pr h
  obtain ⟨hs1, _⟩ := db.lookup_ok authorID d s1 ids hl
  rw [hs1] at hl ha
  have hd2 : d2 = { d with prs := d.prs ++ [⟨prID, name, authorID, "OPEN",
      getRandomStrings rnd (removeByValue ids authorID) 2, none⟩] } ∧
      ∀ r ∈ d.prs, r.ID ≠ prID := by
    rcases db.Add_cases prID name authorID
      (getRandomStrings rnd (removeByValue ids authorID) 2) d with ⟨e, he⟩ | ⟨hfresh, hok⟩
    · have : db.PRDB.Add prID name authorID
        (getRandomStrings rnd (removeByValue ids authorID) 2) d = (none, d2) := ha
      rw [he] at this
      simp at this
    · have : db.PRDB.Add prID name authorID
        (getRandomStrings rnd (removeByValue ids authorID) 2) d = (none, d2) := ha
      rw [hok] at this
      simp only [Prod.mk.injEq, true_and] at this
      exact ⟨this.symm, hfresh⟩
  refine ⟨by rw [hpr], by rw [hpr], by rw [hpr], by rw [hpr], by rw [hpr], ?_, ?_⟩
  · simp only [PRService.Create, recorded_lookup, recorded_Add, hl, ha, List.nil_append,
      List.singleton_append, hpr]
  · rw [db.Get_eq, hd2.1]
    simp only [List.find?_append]
    have hnone : d.prs.find? (fun r => r.ID == prID) = none := by
      rw [List.find?_eq_none]
      intro x hx hxe
      exact hd2.2 x hx (by simpa using hxe)
    rw [hnone, hpr]
    simp [db.PullRequest.toCore]

theorem Create_returns_persisted_witness :
    PRService.Create db.NewPRDB exRnd "pr1" "x" "A" exTeamDB =
        (.ok ⟨⟨"pr1", "x", "A", "OPEN"⟩, ["R2", "R3"], none⟩, exOpenDB) ∧
      (PRService.Create db.NewPRDB.recorded exRnd "pr1" "x" "A" (exTeamDB, [])).2.2 =
        [Call.GetActiveTeamMemberIDsByUserID "A", Call.Add "pr1" "x" "A" ["R2", "R3"]] ∧
      db.PRDB.Get "pr1" exOpenDB =
        (.ok ⟨⟨"pr1", "x", "A", "OPEN"⟩, ["R2", "R3"], none⟩, exOpenDB) :=
  ⟨by rfl,
    (Create_returns_persisted exRnd "pr1" "x" "A" exTeamDB exOpenDB
      ⟨⟨"pr1", "x", "A", "OPEN"⟩, ["R2", "R3"], none⟩ (by rfl)).2.2.2.2.2⟩

/-- C19, on the code: `UpdateReviewer` is not atomic. On the open PR `pr1` with
reviewers `R2`, `R3` its `SELECT` and checks pass for `R3`; when a Merge of `pr1`
is served before its `UPDATE`, the `UPDATE` still rewrites the row and the
method returns the PR as MERGED with `R3` replaced by `R1` (the merged PR had
`R2`, `R3`); when a Reassign that removes `R3` is served in between, the method
still reports success for `R3`, with no `ErrNotAssigned`. -/
theorem UpdateReviewer_not_atomic :
    db.PRDB.UpdateReviewerSelect "pr1" "R3" exOpenDB = none ∧
    (UpdateReviewerInterleaved "pr1" "R3" "R1" [.merge "pr1"] exOpenDB).1 =
      .ok ⟨⟨"pr1", "x", "A", "MERGED"⟩, ["R2", "R1"], some 0⟩ ∧
    db.PRDB.Get "pr1" (run exOpenDB [.merge "pr1"]) =
      (.ok ⟨⟨"pr1", "x", "A", "MERGED"⟩, ["R2", "R3"], some 0⟩, run exOpenDB [.merge "pr1"]) ∧
    (UpdateReviewerInterleaved "pr1" "R3" "X" [.reassign exRnd "pr1" "R3"] exOpenDB).1 =
      .ok ⟨⟨"pr1", "x", "A", "OPEN"⟩, ["R2", "R1"], none⟩ := by
  refine ⟨?_, ?_, ?_, ?_⟩ <;> rfl

/-- C20, on the code: for an error of `Create` other than `ErrAlreadyExists` the
add-team handler does not stop after its 500 answer. For a request whose two
members share one user id, `Create` returns a database error, and the handler
writes header 500 and `Internal error`, then goes on to write header 201 and
the team body. -/
theorem AddTeamHandler_falls_through :
    (NewTeamService db.NewTeamDB).Create
        ⟨"D", [⟨"u1", "one", true⟩, ⟨"u1", "two", true⟩]⟩ exTeamDB =
      (some (.other "ON CONFLICT DO UPDATE command cannot affect row a second time"),
        exTeamDB) ∧
    rest.NewAddTeamHandler (NewTeamService db.NewTeamDB) (some exTwinTeam) exTeamDB =
      ([rest.Write.WriteHeader 500, rest.Write.Text "Internal error",
        rest.Write.WriteHeader 201, rest.Write.JSONTeam ⟨exTwinTeam⟩], exTeamDB) := by
  constructor <;> rfl

/-- C22: `Reassign` never indexes out of range. Whenever execution gets past the
length check, `getRandomStrings(teamMembersIDs, 1)` has length exactly 1 for
every PR, every lookup result and every outcome `rnd` of the shuffle, so the
index `[0]` yields an id and `Reassign` continues with the storage swap; on the
PostgreSQL storage no run of `Reassign` ends in the index panic. -/
theorem Reassign_index_in_range {σ : Type} (db : PRDB σ) (rnd : Nat → Nat)
    (prID oldReviewerID : String) (s s1 s2 : σ) (pr : PullRequest) (ids : List String)
    (hget : db.Get prID s = (.ok pr, s1)) (hst : pr.Status ≠ "MERGED")
    (hass : oldReviewerID ∈ pr.Reviewers)
    (hlookup : db.GetActiveTeamMemberIDsByUserID oldReviewerID s1 = (.ok ids, s2))
    (hcheck : ¬ (removeByValue (pr.Reviewers.foldl removeByValue ids) pr.AuthorID).length < 1) :
    (getRandomStrings rnd
      (removeByValue (pr.Reviewers.foldl removeByValue ids) pr.AuthorID) 1).length = 1 ∧
    (∃ newReviewerID : String,
      getRandomStrings rnd
        (removeByValue (pr.Reviewers.foldl removeByValue ids) pr.AuthorID) 1 =
          [newReviewerID] ∧
      PRService.Reassign db rnd prID oldReviewerID s =
        (match db.UpdateReviewer prID oldReviewerID newReviewerID s2 with
          | (.error err, s3) => (.error err, s3)
          | (.ok pullReq, s3) => (.ok (pullReq, newReviewerID), s3))) ∧
    (∀ (d : PullReq.db.DB) (prID1 old1 msg : String),
      (PRService.Reassign PullReq.db.NewPRDB rnd prID1 old1 d).1 ≠ .error (.panic msg)) := by
  refine ⟨getRandomStrings_one_length rnd _ hcheck, ?_,
    fun d prID1 old1 msg => Reassign_no_panic rnd prID1 old1 d msg⟩
  obtain ⟨x, hx, _⟩ := getRandomStrings_one rnd _ hcheck
  refine ⟨x, hx, ?_⟩
  rw [Reassign_after_lookup db rnd prID oldReviewerID s s1 s2 pr ids hget hst hass hlookup,
    if_neg hcheck, hx]

theorem Reassign_index_in_range_witness :
    db.NewPRDB.Get "pr1" exOpenDB =
        (.ok ⟨⟨"pr1", "x", "A", "OPEN"⟩, ["R2", "R3"], none⟩, exOpenDB) ∧
      db.NewPRDB.GetActiveTeamMemberIDsByUserID "R3" exOpenDB =
        (.ok ["A", "R1", "R2", "R3"], exOpenDB) ∧
      (getRandomStrings exRnd
        (removeByValue (["R2", "R3"].foldl removeByValue ["A", "R1", "R2", "R3"]) "A")
        1).length = 1 :=
  ⟨by rfl, by rfl,
    (Reassign_index_in_range db.NewPRDB exRnd "pr1" "R3" exOpenDB exOpenDB exOpenDB
      ⟨⟨"pr1", "x", "A", "OPEN"⟩, ["R2", "R3"], none⟩ ["A", "R1", "R2", "R3"]
      (by rfl) (by decide) (by decide) (by rfl) (by decide)).1⟩

/-- C23: `removeByValue(src, val)`, which filters in place over the backing array
of `src`, returns exactly the elements of `src` that differ from `val`, in their
original order and with their original multiplicities; the result never
contains `val`, and applying `removeByValue` with the same `val` again changes
nothing. The backing array keeps its length. -/
theorem removeByValue_filters (src : List String) (val : String) :
    removeByValue src val = src.filter (fun v => v != val) ∧
    List.Sublist (removeByValue src val) src ∧
    (∀ x : String, x ≠ val → (removeByValue src val).count x = src.count x) ∧
    val ∉ removeByValue src val ∧
    removeByValue (removeByValue src val) val = removeByValue src val ∧
    (removeByValueMem src val).1.length = src.length := by
  refine ⟨removeByValue_eq_filter src val, ?_, ?_, ?_, ?_, removeByValueMem_length src val⟩
  · rw [removeByValue_eq_filter]
    exact List.filter_sublist src
  · intro x hx
    rw [removeByValue_eq_filter, List.count_filter]
    simpa using hx
  · intro h
    exact ((mem_removeByValue src val val).mp h).2 rfl
  · rw [removeByValue_eq_filter (removeByValue src val) val, removeByValue_eq_filter src val,
      List.filter_filter]
    congr 1
    funext v
    simp

/-- C21, on the code: the response of the merge handler does not carry `mergedAt`.
For `pr1` merged at time 7, `Merge` returns the PR with `mergedAt = 7`; the
response built by the handler has the same id, name, author, status and
reviewers, and a `mergedAt` that is null. -/
theorem MergeHandler_drops_mergedAt :
    (NewPRService db.NewPRDB exRnd).Merge "pr1" (run exOpenDB [.tick 7]) =
      (.ok ⟨⟨"pr1", "x", "A", "MERGED"⟩, ["R2", "R3"], some 7⟩, exMergedDB) ∧
    rest.NewMergePRHandler (NewPRService db.NewPRDB exRnd) (some ⟨"pr1"⟩)
        (run exOpenDB [.tick 7]) =
      ([rest.Write.JSONPullRequest ⟨⟨"pr1", "x", "A", "MERGED", ["R2", "R3"], none⟩⟩],
        exMergedDB) := by
  constructor <;> rfl

end PullReq
